import Mathlib

/-!
# Verification of the file-vault backend

Shallow embedding of the deduplicated storage engine of the repository
(`backend/files/`): upload validation (`validators.py`), quota accounting
(`utils/storage.py`, `models.UserStorageQuota`), the dedup upload path
(`serializers.FileSerializer.validate`/`create`), and the delete/download
views (`views.FileViewSet.destroy`/`download`).  The database is modelled
as explicit in-memory tables (lists of rows); each HTTP-level operation is
a pure function from state to result and next state, following the source
line by line under a sequential (single-request-at-a-time) schedule.
-/

namespace FileVault

/-- `constants.MAX_FILE_SIZE = 10 * 1024 * 1024` (10 MB). -/
def MAX_FILE_SIZE : Nat := 10 * 1024 * 1024

/-- `constants.USER_STORAGE_QUOTA = 10 * 1024 * 1024` (10 MB default limit). -/
def USER_STORAGE_QUOTA : Nat := 10 * 1024 * 1024

/-- `constants.BLOCKED_MIME_TYPES`. -/
def BLOCKED_MIME_TYPES : List String :=
  ["application/x-msdownload",
   "application/x-msdos-program",
   "application/x-executable",
   "application/x-sharedlib",
   "application/x-sh",
   "application/x-shellscript",
   "text/x-python",
   "text/x-php",
   "application/javascript"]

/-- Reasons an upload is rejected before commit (§ error taxonomy of the
serializer and `utils.storage`). -/
inductive Rejection where
  | emptyFile
  | tooLarge
  | blockedType
  | quotaExceeded
deriving DecidableEq

/-- `validators.validate_file_not_empty`: rejects iff `file.size == 0`. -/
def validate_file_not_empty (size : Nat) : Option Rejection :=
  if size = 0 then some .emptyFile else none

/-- `validators.validate_file_size`: rejects iff `file.size > MAX_FILE_SIZE`
(strict comparison: a file of exactly `MAX_FILE_SIZE` bytes passes). -/
def validate_file_size (size : Nat) : Option Rejection :=
  if size > MAX_FILE_SIZE then some .tooLarge else none

/-- `validators.validate_file_type`: rejects iff the declared MIME type is in
`BLOCKED_MIME_TYPES`. -/
def validate_file_type (ctype : String) : Option Rejection :=
  if BLOCKED_MIME_TYPES.contains ctype then some .blockedType else none

/-- `FileSerializer.validate_file` (same check order as
`validators.validate_file`): not-empty, then size, then type; the first
failure is reported. -/
def validate_file (size : Nat) (ctype : String) : Option Rejection :=
  match validate_file_not_empty size with
  | some r => some r
  | none =>
    match validate_file_size size with
    | some r => some r
    | none => validate_file_type ctype

deriving instance DecidableEq for Except

/-- One `UserStorageQuota` row: `user_id` (primary key),
`total_storage_used` (BigInteger), `storage_limit` (BigInteger). -/
structure Quota where
  user : String
  used : Int
  limit : Int
deriving DecidableEq

/-- `UserStorageQuota.objects.get_or_create(user_id=u,
defaults={'storage_limit': USER_STORAGE_QUOTA})`: returns the existing row,
or inserts a fresh row with zero usage and the default limit. -/
def getOrCreateQuota (qs : List Quota) (u : String) : Quota × List Quota :=
  match qs.find? (fun q => q.user == u) with
  | some q => (q, qs)
  | none =>
    let q : Quota := ⟨u, 0, (USER_STORAGE_QUOTA : Int)⟩
    (q, qs ++ [q])

/-- `UserStorageQuota.has_space_for`:
`(total_storage_used + file_size) <= storage_limit`. -/
def hasSpaceFor (q : Quota) (sz : Nat) : Bool :=
  decide (q.used + (sz : Int) ≤ q.limit)

/-- `utils.storage.check_storage_quota`: get-or-create the row, then report
whether the user has space (the returned quota table includes the lazily
created row, committed even when the check fails). -/
def check_storage_quota (qs : List Quota) (u : String) (sz : Nat) :
    Bool × List Quota :=
  let p := getOrCreateQuota qs u
  (hasSpaceFor p.1 sz, p.2)

/-- `quota.total_storage_used = v; quota.save()` for user `u`. -/
def setUsed (qs : List Quota) (u : String) (v : Int) : List Quota :=
  qs.map fun q => if q.user == u then { q with used := v } else q

/-- `UserStorageQuota.objects.filter(user_id=u).update(total_storage_used=
F('total_storage_used') + d)` (the atomic increment used by
`FileSerializer.create`). -/
def addUsed (qs : List Quota) (u : String) (d : Int) : List Quota :=
  qs.map fun q => if q.user == u then { q with used := q.used + d } else q

/-- `MAX_SAFE_STORAGE = 2**62` from `utils.storage.update_storage_usage`. -/
def MAX_SAFE_STORAGE : Int := 2 ^ 62

/-- `utils.storage.update_storage_usage`: get-or-create the row, compute
`new_storage = total_storage_used + size_delta`; clamp below at 0 (logged as
an anomaly), raise `ValueError` above `MAX_SAFE_STORAGE`, otherwise store the
new value. -/
def update_storage_usage (qs : List Quota) (u : String) (delta : Int) :
    Except Unit (List Quota) :=
  let p := getOrCreateQuota qs u
  let n := p.1.used + delta
  if n < 0 then .ok (setUsed p.2 u 0)
  else if n > MAX_SAFE_STORAGE then .error ()
  else .ok (setUsed p.2 u n)

/-- One row of the `File` table (`models.File`): id, owning user, metadata,
content hash, the dedup flag model (`is_reference`, `original_file`,
`reference_count`), and the physical bytes of the `file` field (`none` for
reference rows, which store no physical file). -/
structure FileRec where
  fid : Nat
  user : String
  original_filename : String
  file_type : String
  size : Nat
  file_hash : String
  is_ref : Bool
  orig : Option Nat
  rc : Nat
  content : Option (List Nat)
deriving DecidableEq

/-- Database state: the `File` table (ordered newest-first, matching
`Meta.ordering = ['-uploaded_at']`, so a fresh row is prepended), the
`UserStorageQuota` table, and a fresh-id counter standing for UUID
generation. -/
structure St where
  files : List FileRec
  quotas : List Quota
  nextId : Nat
deriving DecidableEq

def St.empty : St := ⟨[], [], 0⟩

/-- `FileSerializer.validate` + `FileSerializer.create`, sequentially
(one request at a time, so the race-retry branch of `create` is
unreachable).  Arguments: requesting user (from the `UserId` header),
sanitized filename, declared MIME type, `calculate_file_hash(file)`, and the
file's bytes (`size = len(content)`).  Steps, in source order:
field validation (empty/size/type), dedup lookup
(`File.objects.filter(file_hash=h, is_reference=False).first()`),
`validate_storage_quota` (which lazily commits a quota row), then in a
transaction: `get_or_create` + `has_space_for` double-check, row insert,
reference-count increment for a dedup hit, and the atomic usage increment. -/
def uploadOp (s : St) (u fname ftype h : String) (content : List Nat) :
    Except Rejection Nat × St :=
  let sz := content.length
  match validate_file sz ftype with
  | some r => (.error r, s)
  | none =>
    let existing := s.files.find? fun r => r.file_hash == h && !r.is_ref
    let c := check_storage_quota s.quotas u sz
    let s1 : St := { s with quotas := c.2 }
    if !c.1 then (.error .quotaExceeded, s1)
    else
      let p := getOrCreateQuota s1.quotas u
      if !hasSpaceFor p.1 sz then (.error .quotaExceeded, s1)
      else
        match existing with
        | some e =>
          let newRec : FileRec :=
            ⟨s.nextId, u, fname, ftype, sz, h, true, some e.fid, 1, none⟩
          let files1 := newRec :: s.files.map fun x =>
            if x.fid == e.fid then { x with rc := x.rc + 1 } else x
          (.ok s.nextId, ⟨files1, addUsed s1.quotas u (sz : Int), s.nextId + 1⟩)
        | none =>
          let newRec : FileRec :=
            ⟨s.nextId, u, fname, ftype, sz, h, false, none, 1, some content⟩
          (.ok s.nextId,
           ⟨newRec :: s.files, addUsed s1.quotas u (sz : Int), s.nextId + 1⟩)

inductive DestroyErr where
  | notFound
  | dbError
deriving DecidableEq

/-- `instance.delete()` at the database level: removes the row and, by the
`on_delete=CASCADE` of `original_file`, every row referencing it. -/
def removeCascade (files : List FileRec) (fid : Nat) : List FileRec :=
  files.filter fun x => !(x.fid == fid) && !(x.orig == some fid)

/-- `File.objects.filter(pk=fid).update(reference_count=
F('reference_count') - 1)`. -/
def decRc (files : List FileRec) (fid : Nat) : List FileRec :=
  files.map fun x => if x.fid == fid then { x with rc := x.rc - 1 } else x

/-- `FileViewSet.destroy`, sequentially.  The lookup is
`File.objects.select_for_update().get(pk=file_id)` — by primary key only,
with no `user_id` filter (the queryset filter of `get_queryset` is not
applied here).  Reference branch: decrement the original's count (the
`reference_count >= 0` check constraint turns a decrement from 0 into a
database error, rolling back), delete the reference row, release the
requester's quota.  Original branch: with `reference_count > 1` only
decrement the count (the row survives); otherwise delete the row (with
cascade) and its physical file.  Either way
`update_storage_usage(request.user_id, -size)` runs inside the same
transaction, so its `ValueError` rolls everything back. -/
def destroyOp (s : St) (u : String) (fid : Nat) :
    Except DestroyErr Unit × St :=
  match s.files.find? (fun r => r.fid == fid) with
  | none => (.error .notFound, s)
  | some r =>
    if r.is_ref && r.orig.isSome then
      match s.files.find? (fun x => some x.fid == r.orig) with
      | none => (.error .notFound, s)
      | some o =>
        if o.rc == 0 then (.error .dbError, s)
        else
          let files1 := removeCascade (decRc s.files o.fid) r.fid
          match update_storage_usage s.quotas u (-(r.size : Int)) with
          | .ok qs1 => (.ok (), ⟨files1, qs1, s.nextId⟩)
          | .error _ => (.error .dbError, s)
    else
      if r.rc > 1 then
        let files1 := decRc s.files r.fid
        match update_storage_usage s.quotas u (-(r.size : Int)) with
        | .ok qs1 => (.ok (), ⟨files1, qs1, s.nextId⟩)
        | .error _ => (.error .dbError, s)
      else
        let files1 := removeCascade s.files r.fid
        match update_storage_usage s.quotas u (-(r.size : Int)) with
        | .ok qs1 => (.ok (), ⟨files1, qs1, s.nextId⟩)
        | .error _ => (.error .dbError, s)

inductive DlErr where
  | notFound
  | notFoundStorage
deriving DecidableEq

/-- What `FileViewSet.download` puts in the `FileResponse`: the streamed
bytes, `filename=...` / `Content-Disposition`, `content_type`, and
`Content-Length`. -/
structure DlResp where
  bytes : List Nat
  filename : String
  ctype : String
  clen : Nat
deriving DecidableEq

/-- `FileViewSet.download`.  `self.get_object()` goes through
`get_queryset`, which filters by the requesting `user_id`, so the lookup is
by id AND owner.  If the record is a reference with an original, the view
rebinds `file_instance` to the original before building the response (the
`original_file` foreign key cannot dangle, so the inner `none` branch is
unreachable in database-consistent states and conservatively returns the
record itself). -/
def downloadOp (s : St) (u : String) (fid : Nat) : Except DlErr DlResp :=
  match s.files.find? (fun r => r.fid == fid && r.user == u) with
  | none => .error .notFound
  | some r =>
    let t := if r.is_ref && r.orig.isSome then
        match s.files.find? (fun x => some x.fid == r.orig) with
        | some o => o
        | none => r
      else r
    match t.content with
    | none => .error .notFoundStorage
    | some bs => .ok ⟨bs, t.original_filename, t.file_type, t.size⟩

/-- `total_storage_used` of `u` as read from a quota table (0 when the row
does not exist yet). -/
def usedOfQ (qs : List Quota) (u : String) : Int :=
  match qs.find? (fun q => q.user == u) with
  | some q => q.used
  | none => 0

/-- `total_storage_used` of `u` as read from the store. -/
def usedOf (s : St) (u : String) : Int :=
  usedOfQ s.quotas u

/-- Sum of `size` over the live `File` rows owned by `u`. -/
def liveSum (s : St) (u : String) : Nat :=
  ((s.files.filter fun r => r.user == u).map (fun r => r.size)).sum

/-- Number of live rows whose `original_file` points at `fid`. -/
def refsTo (s : St) (fid : Nat) : Nat :=
  s.files.countP fun r => r.orig == some fid

/-- Number of live rows whose `file_hash` is `h`. -/
def hashCount (s : St) (h : String) : Nat :=
  s.files.countP fun r => r.file_hash == h

/-- An API request replayed against the store: an upload (`h` stands for
`calculate_file_hash` of `content`) or a delete. -/
inductive Op where
  | up (u fname ftype h : String) (content : List Nat)
  | del (u : String) (fid : Nat)
deriving DecidableEq

def Op.actor : Op → String
  | .up u _ _ _ _ => u
  | .del u _ => u

/-- True unless this delete targets an original row that other live rows
still reference (`reference_count > 1`) — the case in which `destroy` keeps
the row alive instead of removing it. -/
def delNotZombie (s : St) (fid : Nat) : Bool :=
  match s.files.find? (fun r => r.fid == fid) with
  | some r => (r.is_ref && r.orig.isSome) || decide (r.rc ≤ 1)
  | none => true

/-- True unless this delete is issued by someone other than the record's
owner (which `destroy` does not prevent). -/
def delOwnerOk (s : St) (u : String) (fid : Nat) : Bool :=
  match s.files.find? (fun r => r.fid == fid) with
  | some r => r.user == u
  | none => true

/-- Replay one request, tracking two cleanliness flags: `z` (no delete ever
hit a still-referenced original) and `w` (every delete was issued by the
record's owner). -/
def stepOp : St × Bool × Bool → Op → St × Bool × Bool
  | (s, z, w), .up u fn ft h c => ((uploadOp s u fn ft h c).2, z, w)
  | (s, z, w), .del u fid =>
      ((destroyOp s u fid).2, z && delNotZombie s fid, w && delOwnerOk s u fid)

/-- Replay a request trace from the empty store. -/
def runOps (ops : List Op) : St × Bool × Bool :=
  ops.foldl stepOp (St.empty, true, true)

/-- Upload the same three bytes twice as `alice`, then delete the original
row (id 0) while the second record still references it. -/
def c3Trace : List Op :=
  [.up "alice" "a.txt" "text/plain" "h1" [1, 2, 3],
   .up "alice" "a.txt" "text/plain" "h1" [1, 2, 3],
   .del "alice" 0]

/-- Upload three bytes as `alice`, then delete the record cleanly. -/
def c3CleanTrace : List Op :=
  [.up "alice" "a.txt" "text/plain" "h1" [1, 2, 3],
   .del "alice" 0]

/-- `alice` uploads, `bob` uploads the same content (deduplicated), then
`alice` deletes the original row while `bob` still references it. -/
def c4Trace : List Op :=
  [.up "alice" "a.txt" "text/plain" "h1" [1, 2, 3],
   .up "bob" "b.txt" "text/plain" "h1" [1, 2, 3],
   .del "alice" 0]

/-- Two deduplicated uploads of the same content by different owners. -/
def c4WitTrace : List Op :=
  [.up "alice" "a.txt" "text/plain" "h1" [1, 2, 3],
   .up "bob" "b.txt" "text/plain" "h1" [1, 2, 3]]

/-- Store with an original of `"u1"` (id 0, `reference_count = 2`) and a
reference of `"u2"` (id 1) to the same content, built by replaying the two
uploads. -/
def c2State : St :=
  (uploadOp (uploadOp St.empty "u1" "a.txt" "text/plain" "h1" [1, 2, 3]).2
    "u2" "a.txt" "text/plain" "h1" [1, 2, 3]).2

/-- Store where `"B"` owns the single record (id 0): built by replaying
`"B"`'s upload of 3 bytes. -/
def c1State : St := (uploadOp St.empty "B" "doc.txt" "text/plain" "hB" [1, 2, 3]).2

/-! ## Trace invariants for the dedup store -/

/-- `size` contribution of a row to owner `v`. -/
def sizeIf (v : String) (x : FileRec) : Nat := if x.user == v then x.size else 0

/-- Structural well-formedness of a store state, as guaranteed by the
database schema (unique primary keys, the `original_file` foreign key, the
partial-unique index `unique_original_file_hash`) and maintained by the
operations. -/
structure InvSt (s : St) : Prop where
  fidLt : ∀ r ∈ s.files, r.fid < s.nextId
  fidNd : s.files.Pairwise (fun a b => a.fid ≠ b.fid)
  refOk : ∀ r ∈ s.files, (r.is_ref = true →
    ∃ o ∈ s.files, r.orig = some o.fid ∧ o.is_ref = false ∧
      o.file_hash = r.file_hash) ∧ (r.is_ref = false → r.orig = none)
  hashUq : ∀ a ∈ s.files, ∀ b ∈ s.files, a.is_ref = false →
    b.is_ref = false → a.file_hash = b.file_hash → a = b
  quotaNd : s.quotas.Pairwise (fun a b => a.user ≠ b.user)
  quotaOk : ∀ q ∈ s.quotas, 0 ≤ q.used ∧ q.used ≤ q.limit ∧
    q.limit = (USER_STORAGE_QUOTA : Int)
  fileQuota : ∀ r ∈ s.files, ∃ q ∈ s.quotas, q.user = r.user

/-- Reference counts agree with the number of live referencing rows. -/
def CleanRc (s : St) : Prop :=
  ∀ o ∈ s.files, o.is_ref = false → o.rc = 1 + refsTo s o.fid

/-- Every owner's `total_storage_used` equals the sum of sizes of their
live rows. -/
def CleanQ (s : St) : Prop :=
  ∀ v : String, usedOf s v = (liveSum s v : Int)

/-- The inductive packet carried through a replay: structural invariants
always; `CleanRc` while the `z` flag is up; `CleanQ` while both flags are
up. -/
def GoodPack (p : St × Bool × Bool) : Prop :=
  InvSt p.1 ∧ (p.2.1 = true → CleanRc p.1) ∧
    (p.2.1 = true → p.2.2 = true → CleanQ p.1)

/-! ## ContentHasher — model of `hashlib.sha256` and
`validators.calculate_file_hash`

`hashlib` is an external library; it is modelled by its documented
interface: feeding chunks accumulates bytes, and `hexdigest()` is the
SHA-256 digest (implemented below in full) of everything fed, hex-encoded.
-/

/-- Truncate to a 32-bit word. -/
def w32 (n : Nat) : Nat := n % 4294967296

/-- 32-bit rotate right. -/
def rotr32 (n b : Nat) : Nat := w32 ((n >>> b) ||| (n <<< (32 - b)))

def sha256K : List Nat :=
  [1116352408, 1899447441, 3049323471, 3921009573,
   961987163, 1508970993, 2453635748, 2870763221,
   3624381080, 310598401, 607225278, 1426881987,
   1925078388, 2162078206, 2614888103, 3248222580,
   3835390401, 4022224774, 264347078, 604807628,
   770255983, 1249150122, 1555081692, 1996064986,
   2554220882, 2821834349, 2952996808, 3210313671,
   3336571891, 3584528711, 113926993, 338241895,
   666307205, 773529912, 1294757372, 1396182291,
   1695183700, 1986661051, 2177026350, 2456956037,
   2730485921, 2820302411, 3259730800, 3345764771,
   3516065817, 3600352804, 4094571909, 275423344,
   430227734, 506948616, 659060556, 883997877,
   958139571, 1322822218, 1537002063, 1747873779,
   1955562222, 2024104815, 2227730452, 2361852424,
   2428436474, 2756734187, 3204031479, 3329325298]

/-- The eight-word SHA-256 working state. -/
structure Hash8 where
  a : Nat
  b : Nat
  c : Nat
  d : Nat
  e : Nat
  f : Nat
  g : Nat
  hh : Nat
deriving DecidableEq

def sha256Init : Hash8 :=
  ⟨1779033703, 3144134277, 1013904242, 2773480762,
   1359893119, 2600822924, 528734635, 1541459225⟩

/-- Big-endian byte rendering of `n`, exactly `k` bytes. -/
def toBytesBE : Nat → Nat → List Nat
  | 0, _ => []
  | k + 1, n => toBytesBE k (n / 256) ++ [n % 256]

/-- Big-endian word from bytes. -/
def bytesToWordBE (bs : List Nat) : Nat := bs.foldl (fun a b => a * 256 + b) 0

/-- Split a list into chunks of `n` (the final one possibly shorter);
structural recursion on a fuel bounded by the list length. -/
def chunksOfF {α : Type} (n : Nat) : Nat → List α → List (List α)
  | _, [] => []
  | 0, l => [l]
  | fuel + 1, x :: xs =>
    if n = 0 then [x :: xs]
    else (x :: xs).take n :: chunksOfF n fuel ((x :: xs).drop n)

/-- Split a list into chunks of `n` (the final one possibly shorter). -/
def chunksOf {α : Type} (n : Nat) (l : List α) : List (List α) :=
  chunksOfF n l.length l

/-- SHA-256 padding: append `0x80`, zeros to 56 mod 64, then the bit length
as 8 big-endian bytes. -/
def padMessage (msg : List Nat) : List Nat :=
  let padLen := (56 + 64 - ((msg.length + 1) % 64)) % 64
  msg ++ [0x80] ++ List.replicate padLen 0 ++ toBytesBE 8 (msg.length * 8)

def smallSigma0 (x : Nat) : Nat := (rotr32 x 7) ^^^ (rotr32 x 18) ^^^ (x >>> 3)

def smallSigma1 (x : Nat) : Nat := (rotr32 x 17) ^^^ (rotr32 x 19) ^^^ (x >>> 10)

def bigSigma0 (x : Nat) : Nat := (rotr32 x 2) ^^^ (rotr32 x 13) ^^^ (rotr32 x 22)

def bigSigma1 (x : Nat) : Nat := (rotr32 x 6) ^^^ (rotr32 x 11) ^^^ (rotr32 x 25)

def chFun (x y z : Nat) : Nat := (x &&& y) ^^^ ((x ^^^ 0xffffffff) &&& z)

def majFun (x y z : Nat) : Nat := (x &&& y) ^^^ (x &&& z) ^^^ (y &&& z)

/-- Message-schedule extension: append `k` further words
`W[i] = σ1(W[i-2]) + W[i-7] + σ0(W[i-15]) + W[i-16] (mod 2^32)`. -/
def scheduleFrom (w : List Nat) : Nat → List Nat
  | 0 => w
  | k + 1 =>
    let i := w.length
    scheduleFrom (w ++ [w32 (smallSigma1 (w.getD (i - 2) 0) + w.getD (i - 7) 0
      + smallSigma0 (w.getD (i - 15) 0) + w.getD (i - 16) 0)]) k

/-- One SHA-256 round. -/
def roundStep (st : Hash8) (kw : Nat × Nat) : Hash8 :=
  let t1 := w32 (st.hh + bigSigma1 st.e + chFun st.e st.f st.g + kw.1 + kw.2)
  let t2 := w32 (bigSigma0 st.a + majFun st.a st.b st.c)
  ⟨w32 (t1 + t2), st.a, st.b, st.c, w32 (st.d + t1), st.e, st.f, st.g⟩

/-- Compress one 64-byte block into the running state. -/
def compressBlock (st : Hash8) (block : List Nat) : Hash8 :=
  let ws := scheduleFrom ((chunksOf 4 block).map bytesToWordBE) 48
  let r := (sha256K.zip ws).foldl roundStep st
  ⟨w32 (st.a + r.a), w32 (st.b + r.b), w32 (st.c + r.c), w32 (st.d + r.d),
   w32 (st.e + r.e), w32 (st.f + r.f), w32 (st.g + r.g), w32 (st.hh + r.hh)⟩

/-- SHA-256 digest of a byte list: 32 bytes. -/
def sha256 (msg : List Nat) : List Nat :=
  let fin := (chunksOf 64 (padMessage msg)).foldl compressBlock sha256Init
  ([fin.a, fin.b, fin.c, fin.d, fin.e, fin.f, fin.g, fin.hh].map
    (toBytesBE 4)).flatten

def hexDigits : List Char := "0123456789abcdef".toList

def hexChar (d : Nat) : Char := hexDigits.getD d '0'

def hexChars (bs : List Nat) : List Char :=
  (bs.map (fun b => [hexChar (b / 16), hexChar (b % 16)])).flatten

/-- `hexdigest()`: the digest hex-encoded, two lowercase digits per byte. -/
def sha256hex (msg : List Nat) : String := String.mk (hexChars (sha256 msg))

/-- An upload stream: its bytes and the current read position
(`file.seek(0)` resets the position; `file.chunks()` / `file.read()`
consume from it). -/
structure ByteStream where
  data : List Nat
  pos : Nat
deriving DecidableEq

/-- The hasher loop of `calculate_file_hash`: `hasher.update(chunk)` for
each chunk, then `hasher.hexdigest()`; per the `hashlib` interface the
digest is SHA-256 of the concatenation of all fed chunks. -/
def hashChunks (chunks : List (List Nat)) : String :=
  sha256hex (chunks.foldl (fun acc c => acc ++ c) [])

/-- `validators.calculate_file_hash`: `file.seek(0)`; feed
`file.chunks(chunk_size=8192)` (or, in the fallback branch, manual
`file.read(8192)` chunks — the same 8192-byte chunking of the full
content); `file.seek(0)`; return the hex digest.  Returns the digest and
the stream as left behind. -/
def calculate_file_hash (f : ByteStream) : String × ByteStream :=
  let f0 : ByteStream := { f with pos := 0 }
  let digest := hashChunks (chunksOf 8192 f0.data)
  (digest, { f0 with pos := 0 })

/-! ## Filename sanitization — `validators.sanitize_filename`

The function operates on strings; here a string is its list of code
points.  The `unicodedata.normalize('NFKD', ...)` step (an external
library) is abstracted by quantifying over the normalized code-point
sequence: the embedding starts from an arbitrary input list and applies
`encode('ascii', 'ignore')` — which keeps exactly the code points below
128 — so every theorem proved for all inputs covers every possible NFKD
output. -/

/-- Code points of a literal string. -/
def codes (s : String) : List Nat := s.toList.map Char.toNat

/-- `os.path.basename` (POSIX): the part after the last `'/'` (47). -/
def basenameP (l : List Nat) : List Nat :=
  ((l.reverse).takeWhile (fun c => !(c == 47))).reverse

/-- The `dangerous_chars` list of `sanitize_filename`: `/ \\ NUL : * ? " < >
| LF CR TAB VT FF`. -/
def dangerousChars : List Nat := [47, 92, 0, 58, 42, 63, 34, 60, 62, 124, 10, 13, 9, 11, 12]

/-- The replacement loop `for char in dangerous_chars:
filename = filename.replace(char, '_')`; since `'_'` is not itself
dangerous, the sequential replacements equal one pass. -/
def replaceDangerous (l : List Nat) : List Nat :=
  l.map (fun c => if dangerousChars.contains c then 95 else c)

/-- `''.join(char if ord(char) >= 32 and ord(char) != 127 else '_' ...)`. -/
def stripControl (l : List Nat) : List Nat :=
  l.map (fun c => if 32 ≤ c ∧ c ≠ 127 then c else 95)

/-- The strip set of `filename.strip('. _')`. -/
def stripSet : List Nat := [46, 32, 95]

/-- `filename.strip('. _')`: remove leading and trailing dots, spaces and
underscores. -/
def stripEnds (l : List Nat) : List Nat :=
  ((l.dropWhile (fun c => stripSet.contains c)).reverse.dropWhile
    (fun c => stripSet.contains c)).reverse

/-- Index of the last occurrence of `c`, if any. -/
def lastIndexOf (c : Nat) (l : List Nat) : Option Nat :=
  match (l.reverse).findIdx? (fun x => x == c) with
  | some j => some (l.length - 1 - j)
  | none => none

/-- `os.path.splitext` (posixpath): split at the last dot after the last
separator, unless every character between them is a dot (leading-dot
files like `.bashrc` have no extension). -/
def splitext (p : List Nat) : List Nat × List Nat :=
  let sepIdx : Int := match lastIndexOf 47 p with
    | some i => (i : Int)
    | none => -1
  let dotIdx : Int := match lastIndexOf 46 p with
    | some i => (i : Int)
    | none => -1
  if dotIdx > sepIdx then
    if (List.range p.length).any (fun i =>
        decide (sepIdx < (i : Int)) && decide ((i : Int) < dotIdx)
          && !(p.getD i 0 == 46)) then
      (p.take dotIdx.toNat, p.drop dotIdx.toNat)
    else (p, [])
  else (p, [])

/-- `str.upper()` on an ASCII code point. -/
def upperChar (c : Nat) : Nat := if 97 ≤ c ∧ c ≤ 122 then c - 32 else c

def upperList (l : List Nat) : List Nat := l.map upperChar

/-- `WINDOWS_RESERVED_NAMES` from `sanitize_filename`. -/
def WINDOWS_RESERVED : List (List Nat) :=
  [codes "CON", codes "PRN", codes "AUX", codes "NUL",
   codes "COM1", codes "COM2", codes "COM3", codes "COM4", codes "COM5",
   codes "COM6", codes "COM7", codes "COM8", codes "COM9",
   codes "LPT1", codes "LPT2", codes "LPT3", codes "LPT4", codes "LPT5",
   codes "LPT6", codes "LPT7", codes "LPT8", codes "LPT9"]

/-- The reserved-name check: prefix `'_'` when the name (or its base
without extension), uppercased, is Windows-reserved. -/
def reservedFix (f4 : List Nat) : List Nat :=
  if WINDOWS_RESERVED.contains (upperList f4)
      || WINDOWS_RESERVED.contains (upperList (splitext f4).1)
    then 95 :: f4 else f4

/-- `sanitize_filename` up to (and including) the reserved-name prefixing:
ascii filter, triple basename, dangerous-character replacement, control
stripping, strip of `'. _'`, and the reserved-name prefix. -/
def sanitize_stripped (input : List Nat) : List Nat :=
  reservedFix (stripEnds (stripControl (replaceDangerous (basenameP
    (basenameP (basenameP (input.filter (fun c => decide (c < 128)))))))))

/-- `if not filename or filename == '.' or filename == '..':
filename = 'unnamed_file'` (after `strip` the dot cases are already
impossible, but they are embedded as written). -/
def emptyFix (f5 : List Nat) : List Nat :=
  if f5 = [] ∨ f5 = [46] ∨ f5 = [46, 46] then codes "unnamed_file" else f5

/-- The 200-character cap, keeping the extension when it fits. -/
def truncate200 (f6 : List Nat) : List Nat :=
  if 200 < f6.length then
    if 0 < 200 - (splitext f6).2.length then
      (splitext f6).1.take (200 - (splitext f6).2.length) ++ (splitext f6).2
    else f6.take 200
  else f6

/-- `validators.sanitize_filename`: the full pipeline. -/
def sanitize_filename (input : List Nat) : List Nat :=
  truncate200 (emptyFix (sanitize_stripped input))

/-! ## Claim C9 — sanitize_filename postcondition -/

theorem mem_basenameP (l : List Nat) (c : Nat) (h : c ∈ basenameP l) :
    c ∈ l := by
  unfold basenameP at h
  rw [List.mem_reverse] at h
  have := (List.takeWhile_prefix (l := l.reverse)
    (p := fun c => !(c == 47))).subset h
  rwa [List.mem_reverse] at this

theorem mem_stripEnds (l : List Nat) (c : Nat) (h : c ∈ stripEnds l) :
    c ∈ l := by
  unfold stripEnds at h
  rw [List.mem_reverse] at h
  have h2 := (List.dropWhile_suffix (fun c => stripSet.contains c)).subset h
  rw [List.mem_reverse] at h2
  exact (List.dropWhile_suffix (fun c => stripSet.contains c)).subset h2

theorem mem_replaceDangerous (l : List Nat) (c : Nat)
    (h : c ∈ replaceDangerous l) :
    c = 95 ∨ (c ∈ l ∧ dangerousChars.contains c = false) := by
  unfold replaceDangerous at h
  rw [List.mem_map] at h
  obtain ⟨x, hx, hxc⟩ := h
  by_cases hd : dangerousChars.contains x = true
  · left
    rw [← hxc, if_pos hd]
  · have hd2 : dangerousChars.contains x = false := by
      cases hcs : dangerousChars.contains x
      · rfl
      · exact absurd hcs hd
    have hcx : c = x := by rw [← hxc, if_neg hd]
    right
    rw [hcx]
    exact ⟨hx, hd2⟩

theorem mem_stripControl (l : List Nat) (c : Nat) (h : c ∈ stripControl l) :
    c = 95 ∨ (c ∈ l ∧ 32 ≤ c ∧ c ≠ 127) := by
  unfold stripControl at h
  rw [List.mem_map] at h
  obtain ⟨x, hx, hxc⟩ := h
  by_cases hb : 32 ≤ x ∧ x ≠ 127
  · have hcx : c = x := by rw [← hxc, if_pos hb]
    right
    rw [hcx]
    exact ⟨hx, hb.1, hb.2⟩
  · left
    rw [← hxc, if_neg hb]

theorem mem_reservedFix (f4 : List Nat) (c : Nat) (h : c ∈ reservedFix f4) :
    c = 95 ∨ c ∈ f4 := by
  unfold reservedFix at h
  by_cases hres : (WINDOWS_RESERVED.contains (upperList f4)
      || WINDOWS_RESERVED.contains (upperList (splitext f4).1)) = true
  · rw [if_pos hres] at h
    rcases List.mem_cons.mp h with h | h
    · exact Or.inl h
    · exact Or.inr h
  · rw [if_neg hres] at h
    exact Or.inr h

theorem mem_sanitize_stripped (input : List Nat) (c : Nat)
    (h : c ∈ sanitize_stripped input) :
    32 ≤ c ∧ c < 127 ∧ c ≠ 47 ∧ c ≠ 92 := by
  unfold sanitize_stripped at h
  rcases mem_reservedFix _ _ h with h95 | h4
  · omega
  · have h3 := mem_stripEnds _ _ h4
    rcases mem_stripControl _ _ h3 with h5 | ⟨h5, hge, hne⟩
    · omega
    · rcases mem_replaceDangerous _ _ h5 with h6 | ⟨h6, hdang⟩
      · omega
      · have h7 := mem_basenameP _ _ (mem_basenameP _ _ (mem_basenameP _ _ h6))
        have h8 : c < 128 := by
          have := (List.mem_filter.mp h7).2
          simpa using this
        have h47 : c ≠ 47 := by
          intro hc
          rw [hc] at hdang
          exact absurd hdang (by decide)
        have h92 : c ≠ 92 := by
          intro hc
          rw [hc] at hdang
          exact absurd hdang (by decide)
        omega

theorem splitext_splitAt (p : List Nat) :
    ∃ k, splitext p = (p.take k, p.drop k) := by
  unfold splitext
  by_cases h1 : (match lastIndexOf 46 p with
      | some i => (i : Int)
      | none => -1) > (match lastIndexOf 47 p with
      | some i => (i : Int)
      | none => -1)
  · rw [if_pos h1]
    by_cases h2 : ((List.range p.length).any (fun i =>
        decide ((match lastIndexOf 47 p with
          | some i => (i : Int)
          | none => -1) < (i : Int)) &&
        decide ((i : Int) < (match lastIndexOf 46 p with
          | some i => (i : Int)
          | none => -1)) && !(p.getD i 0 == 46))) = true
    · rw [if_pos h2]
      exact ⟨_, rfl⟩
    · rw [if_neg h2]
      exact ⟨p.length, by simp⟩
  · rw [if_neg h1]
    exact ⟨p.length, by simp⟩

theorem emptyFix_ne_nil (f5 : List Nat) : emptyFix f5 ≠ [] := by
  unfold emptyFix
  by_cases h : f5 = [] ∨ f5 = [46] ∨ f5 = [46, 46]
  · rw [if_pos h]
    decide
  · rw [if_neg h]
    intro hc
    exact h (Or.inl hc)

theorem mem_emptyFix (f5 : List Nat) (c : Nat) (h : c ∈ emptyFix f5) :
    c ∈ codes "unnamed_file" ∨ c ∈ f5 := by
  unfold emptyFix at h
  by_cases hc : f5 = [] ∨ f5 = [46] ∨ f5 = [46, 46]
  · rw [if_pos hc] at h
    exact Or.inl h
  · rw [if_neg hc] at h
    exact Or.inr h

theorem truncate200_length (f6 : List Nat) : (truncate200 f6).length ≤ 200 := by
  unfold truncate200
  by_cases hover : 200 < f6.length
  · rw [if_pos hover]
    obtain ⟨k, hk⟩ := splitext_splitAt f6
    rw [hk]
    dsimp only
    by_cases hfit : 0 < 200 - (f6.drop k).length
    · rw [if_pos hfit]
      rw [List.length_append, List.length_take, List.length_take,
        List.length_drop]
      rw [List.length_drop] at hfit
      omega
    · rw [if_neg hfit]
      rw [List.length_take]
      omega
  · rw [if_neg hover]
    omega

theorem truncate200_ne_nil (f6 : List Nat) (h : f6 ≠ []) :
    truncate200 f6 ≠ [] := by
  have hlen : 0 < f6.length := List.length_pos.mpr h
  unfold truncate200
  by_cases hover : 200 < f6.length
  · rw [if_pos hover]
    obtain ⟨k, hk⟩ := splitext_splitAt f6
    rw [hk]
    dsimp only
    by_cases hfit : 0 < 200 - (f6.drop k).length
    · rw [if_pos hfit]
      intro hc
      have hlc := congrArg List.length hc
      rw [List.length_append, List.length_take, List.length_take,
        List.length_drop, List.length_nil] at hlc
      rw [List.length_drop] at hfit
      omega
    · rw [if_neg hfit]
      intro hc
      have hlc := congrArg List.length hc
      rw [List.length_take, List.length_nil] at hlc
      omega
  · rw [if_neg hover]
    exact h

theorem mem_truncate200 (f6 : List Nat) (c : Nat) (h : c ∈ truncate200 f6) :
    c ∈ f6 := by
  unfold truncate200 at h
  by_cases hover : 200 < f6.length
  · rw [if_pos hover] at h
    obtain ⟨k, hk⟩ := splitext_splitAt f6
    rw [hk] at h
    dsimp only at h
    by_cases hfit : 0 < 200 - (f6.drop k).length
    · rw [if_pos hfit] at h
      rcases List.mem_append.mp h with h | h
      · exact (List.take_subset _ _) ((List.take_subset _ _) h)
      · exact (List.drop_subset _ _) h
    · rw [if_neg hfit] at h
      exact (List.take_subset _ _) h
  · rw [if_neg hover] at h
    exact h

/-- C9: for every input, `sanitize_filename` returns a non-empty name of at
most 200 characters whose every code point is printable ASCII (at least 32
and below 127 — hence no NUL and no control characters) and is neither a
forward slash nor a backslash; and an input whose sanitized core comes out
empty yields the fixed name `unnamed_file`. -/
theorem C9_sanitize_postcondition (input : List Nat) :
    sanitize_filename input ≠ [] ∧
    (sanitize_filename input).length ≤ 200 ∧
    (∀ c ∈ sanitize_filename input, 32 ≤ c ∧ c < 127 ∧ c ≠ 47 ∧ c ≠ 92) ∧
    (sanitize_stripped input = [] →
      sanitize_filename input = codes "unnamed_file") := by
  refine ⟨?_, ?_, ?_, ?_⟩
  · exact truncate200_ne_nil _ (emptyFix_ne_nil _)
  · exact truncate200_length _
  · intro c hc
    have h6 := mem_truncate200 _ _ hc
    rcases mem_emptyFix _ _ h6 with h | h
    · have huf : ∀ d ∈ codes "unnamed_file",
          32 ≤ d ∧ d < 127 ∧ d ≠ 47 ∧ d ≠ 92 := by decide
      exact huf c h
    · exact mem_sanitize_stripped input c h
  · intro h5
    unfold sanitize_filename
    rw [h5]
    rfl

/-- C9 witness: the theorem applied to the path-traversal example from the
function's docstring. -/
theorem C9_sanitize_postcondition_witness :
    (sanitize_filename (codes "../../../etc/passwd")).length ≤ 200 :=
  (C9_sanitize_postcondition (codes "../../../etc/passwd")).2.1

/-! ## Basic lemmas about the quota table -/

theorem find?_map_of_pred_eq {α : Type} (f : α → α) (p : α → Bool)
    (hp : ∀ x, p (f x) = p x) :
    ∀ l : List α, (l.map f).find? p = (l.find? p).map f := by
  intro l
  induction l with
  | nil => rfl
  | cons a l ih =>
    by_cases ha : p a
    · simp [List.find?_cons, hp, ha, ih]
    · simp only [Bool.not_eq_true] at ha
      simp [List.find?_cons, hp, ha, ih]

theorem find?_append_of_none {α : Type} (p : α → Bool) (l1 l2 : List α)
    (h : l1.find? p = none) : (l1 ++ l2).find? p = l2.find? p := by
  induction l1 with
  | nil => rfl
  | cons a l ih =>
    rw [List.find?_cons] at h
    by_cases ha : p a
    · simp [ha] at h
    · simp only [Bool.not_eq_true] at ha
      simp only [ha] at h
      simp [List.find?_cons, ha, ih h]

theorem find?_append_of_some {α : Type} (p : α → Bool) (l1 l2 : List α)
    (a : α) (h : l1.find? p = some a) : (l1 ++ l2).find? p = some a := by
  induction l1 with
  | nil => simp at h
  | cons b l ih =>
    rw [List.find?_cons] at h
    by_cases hb : p b
    · simp only [hb] at h
      simp [List.find?_cons, hb, h]
    · simp only [Bool.not_eq_true] at hb
      simp only [hb] at h
      simp [List.find?_cons, hb, ih h]

theorem setUsed_user_pred (u : String) (v : Int) (x : Quota) :
    ((fun q => if q.user == u then { q with used := v } else q) x).user
      = x.user := by
  by_cases hx : x.user == u <;> simp [hx]

theorem addUsed_user_pred (u : String) (d : Int) (x : Quota) :
    ((fun q => if q.user == u then { q with used := q.used + d } else q) x).user
      = x.user := by
  by_cases hx : x.user == u <;> simp [hx]

theorem find?_setUsed (qs : List Quota) (u w : String) (v : Int) :
    (setUsed qs u v).find? (fun q => q.user == w)
      = (qs.find? (fun q => q.user == w)).map
          (fun q => if q.user == u then { q with used := v } else q) := by
  unfold setUsed
  exact find?_map_of_pred_eq _ _ (fun x => by rw [setUsed_user_pred]) qs

theorem find?_addUsed (qs : List Quota) (u w : String) (d : Int) :
    (addUsed qs u d).find? (fun q => q.user == w)
      = (qs.find? (fun q => q.user == w)).map
          (fun q => if q.user == u then { q with used := q.used + d } else q) := by
  unfold addUsed
  exact find?_map_of_pred_eq _ _ (fun x => by rw [addUsed_user_pred]) qs

theorem getOrCreate_find_self (qs : List Quota) (u : String) :
    ((getOrCreateQuota qs u).2).find? (fun q => q.user == u)
      = some (getOrCreateQuota qs u).1 := by
  unfold getOrCreateQuota
  cases hf : qs.find? (fun q => q.user == u) with
  | some q => simp [hf]
  | none =>
    simp only [hf]
    rw [find?_append_of_none _ _ _ hf]
    simp

theorem getOrCreate_used_self (qs : List Quota) (u : String) :
    (getOrCreateQuota qs u).1.used = usedOfQ qs u := by
  unfold getOrCreateQuota usedOfQ
  cases hf : qs.find? (fun q => q.user == u) <;> simp [hf]

theorem getOrCreate_find_other (qs : List Quota) (u w : String) (hne : w ≠ u) :
    ((getOrCreateQuota qs u).2).find? (fun q => q.user == w)
      = qs.find? (fun q => q.user == w) := by
  unfold getOrCreateQuota
  cases hf : qs.find? (fun q => q.user == u) with
  | some q => simp [hf]
  | none =>
    simp only [hf]
    cases hw : qs.find? (fun q => q.user == w) with
    | some q => rw [find?_append_of_some _ _ _ _ hw]
    | none =>
      rw [find?_append_of_none _ _ _ hw]
      simp [List.find?_cons, hne.symm]

theorem usedOfQ_setUsed_self (qs : List Quota) (u : String) (v : Int)
    (h : (qs.find? (fun q => q.user == u)).isSome) :
    usedOfQ (setUsed qs u v) u = v := by
  unfold usedOfQ
  rw [find?_setUsed]
  cases hf : qs.find? (fun q => q.user == u) with
  | some q =>
    have hq : q.user = u := by simpa using List.find?_some hf
    simp [hq]
  | none => rw [hf] at h; simp at h

theorem usedOfQ_setUsed_other (qs : List Quota) (u w : String) (v : Int)
    (hne : w ≠ u) : usedOfQ (setUsed qs u v) w = usedOfQ qs w := by
  unfold usedOfQ
  rw [find?_setUsed]
  cases hf : qs.find? (fun q => q.user == w) with
  | some q =>
    have hq : q.user = w := by simpa using List.find?_some hf
    have hqu : q.user ≠ u := by rw [hq]; exact hne
    simp [hqu]
  | none => simp

theorem usedOfQ_addUsed_self (qs : List Quota) (u : String) (d : Int)
    (h : (qs.find? (fun q => q.user == u)).isSome) :
    usedOfQ (addUsed qs u d) u = usedOfQ qs u + d := by
  unfold usedOfQ
  rw [find?_addUsed]
  cases hf : qs.find? (fun q => q.user == u) with
  | some q =>
    have hq : q.user = u := by simpa using List.find?_some hf
    simp [hq]
  | none => rw [hf] at h; simp at h

theorem usedOfQ_addUsed_other (qs : List Quota) (u w : String) (d : Int)
    (hne : w ≠ u) : usedOfQ (addUsed qs u d) w = usedOfQ qs w := by
  unfold usedOfQ
  rw [find?_addUsed]
  cases hf : qs.find? (fun q => q.user == w) with
  | some q =>
    have hq : q.user = w := by simpa using List.find?_some hf
    have hqu : q.user ≠ u := by rw [hq]; exact hne
    simp [hqu]
  | none => simp

theorem getOrCreate_usedOfQ (qs : List Quota) (u w : String) :
    usedOfQ (getOrCreateQuota qs u).2 w = usedOfQ qs w := by
  by_cases hw : w = u
  · subst hw
    unfold usedOfQ
    rw [getOrCreate_find_self]
    exact getOrCreate_used_self _ _
  · unfold usedOfQ
    rw [getOrCreate_find_other _ _ _ hw]

/-- Effect of a successful `update_storage_usage` on the caller's row:
the stored value is the clamped sum. -/
theorem usedOfQ_update_ok (qs : List Quota) (u : String) (delta : Int)
    (qs2 : List Quota) (h : update_storage_usage qs u delta = .ok qs2) :
    usedOfQ qs2 u = max 0 (usedOfQ qs u + delta) := by
  unfold update_storage_usage at h
  have hfound : (((getOrCreateQuota qs u).2).find?
      (fun q => q.user == u)).isSome := by
    rw [getOrCreate_find_self]; rfl
  by_cases h0 : (getOrCreateQuota qs u).1.used + delta < 0
  · simp only [h0, if_pos] at h
    cases h
    rw [usedOfQ_setUsed_self _ _ _ hfound]
    rw [getOrCreate_used_self] at h0
    omega
  · simp only [h0, if_neg, if_false] at h
    by_cases hmax : (getOrCreateQuota qs u).1.used + delta > MAX_SAFE_STORAGE
    · simp [hmax] at h
    · simp only [hmax, if_neg, if_false] at h
      cases h
      rw [usedOfQ_setUsed_self _ _ _ hfound, getOrCreate_used_self]
      rw [getOrCreate_used_self] at h0
      omega

/-- A successful `update_storage_usage` leaves other users' rows unchanged. -/
theorem usedOfQ_update_ok_other (qs : List Quota) (u w : String) (delta : Int)
    (qs2 : List Quota) (hne : w ≠ u)
    (h : update_storage_usage qs u delta = .ok qs2) :
    usedOfQ qs2 w = usedOfQ qs w := by
  unfold update_storage_usage at h
  by_cases h0 : (getOrCreateQuota qs u).1.used + delta < 0
  · simp only [h0, if_pos] at h
    cases h
    rw [usedOfQ_setUsed_other _ _ _ _ hne, getOrCreate_usedOfQ]
  · simp only [h0, if_neg, if_false] at h
    by_cases hmax : (getOrCreateQuota qs u).1.used + delta > MAX_SAFE_STORAGE
    · simp [hmax] at h
    · simp only [hmax, if_neg, if_false] at h
      cases h
      rw [usedOfQ_setUsed_other _ _ _ _ hne, getOrCreate_usedOfQ]

theorem getOrCreate_idem (qs : List Quota) (u : String) :
    getOrCreateQuota (getOrCreateQuota qs u).2 u
      = ((getOrCreateQuota qs u).1, (getOrCreateQuota qs u).2) := by
  have h := getOrCreate_find_self qs u
  generalize hg : getOrCreateQuota qs u = pr at h ⊢
  obtain ⟨q0, qs0⟩ := pr
  unfold getOrCreateQuota
  rw [h]

/-! ## Equation lemmas for the operations -/

theorem destroyOp_notfound (s : St) (u : String) (fid : Nat)
    (h : s.files.find? (fun x => x.fid == fid) = none) :
    destroyOp s u fid = (.error .notFound, s) := by
  unfold destroyOp
  rw [h]

theorem destroyOp_ref_noorig (s : St) (u : String) (fid : Nat) (r : FileRec)
    (hfind : s.files.find? (fun x => x.fid == fid) = some r)
    (hb : (r.is_ref && r.orig.isSome) = true)
    (ho : s.files.find? (fun x => some x.fid == r.orig) = none) :
    destroyOp s u fid = (.error .notFound, s) := by
  unfold destroyOp
  rw [hfind]
  dsimp only
  rw [if_pos hb, ho]

theorem destroyOp_ref_rc0 (s : St) (u : String) (fid : Nat) (r o : FileRec)
    (hfind : s.files.find? (fun x => x.fid == fid) = some r)
    (hb : (r.is_ref && r.orig.isSome) = true)
    (ho : s.files.find? (fun x => some x.fid == r.orig) = some o)
    (hrc : (o.rc == 0) = true) :
    destroyOp s u fid = (.error .dbError, s) := by
  unfold destroyOp
  rw [hfind]
  dsimp only
  rw [if_pos hb, ho]
  dsimp only
  rw [if_pos hrc]

theorem destroyOp_ref_ok (s : St) (u : String) (fid : Nat) (r o : FileRec)
    (qs1 : List Quota)
    (hfind : s.files.find? (fun x => x.fid == fid) = some r)
    (hb : (r.is_ref && r.orig.isSome) = true)
    (ho : s.files.find? (fun x => some x.fid == r.orig) = some o)
    (hrc : (o.rc == 0) = false)
    (hu : update_storage_usage s.quotas u (-(r.size : Int)) = .ok qs1) :
    destroyOp s u fid
      = (.ok (), ⟨removeCascade (decRc s.files o.fid) r.fid, qs1, s.nextId⟩) := by
  unfold destroyOp
  rw [hfind]
  dsimp only
  rw [if_pos hb, ho]
  dsimp only
  rw [if_neg (by simp [hrc]), hu]

theorem destroyOp_ref_uerr (s : St) (u : String) (fid : Nat) (r o : FileRec)
    (e : Unit)
    (hfind : s.files.find? (fun x => x.fid == fid) = some r)
    (hb : (r.is_ref && r.orig.isSome) = true)
    (ho : s.files.find? (fun x => some x.fid == r.orig) = some o)
    (hrc : (o.rc == 0) = false)
    (hu : update_storage_usage s.quotas u (-(r.size : Int)) = .error e) :
    destroyOp s u fid = (.error .dbError, s) := by
  unfold destroyOp
  rw [hfind]
  dsimp only
  rw [if_pos hb, ho]
  dsimp only
  rw [if_neg (by simp [hrc]), hu]

theorem destroyOp_keep (s : St) (u : String) (fid : Nat) (r : FileRec)
    (qs1 : List Quota)
    (hfind : s.files.find? (fun x => x.fid == fid) = some r)
    (hb : (r.is_ref && r.orig.isSome) = false)
    (hrc : r.rc > 1)
    (hu : update_storage_usage s.quotas u (-(r.size : Int)) = .ok qs1) :
    destroyOp s u fid = (.ok (), ⟨decRc s.files r.fid, qs1, s.nextId⟩) := by
  unfold destroyOp
  rw [hfind]
  dsimp only
  rw [if_neg (by simp [hb]), if_pos hrc, hu]

theorem destroyOp_keep_uerr (s : St) (u : String) (fid : Nat) (r : FileRec)
    (e : Unit)
    (hfind : s.files.find? (fun x => x.fid == fid) = some r)
    (hb : (r.is_ref && r.orig.isSome) = false)
    (hrc : r.rc > 1)
    (hu : update_storage_usage s.quotas u (-(r.size : Int)) = .error e) :
    destroyOp s u fid = (.error .dbError, s) := by
  unfold destroyOp
  rw [hfind]
  dsimp only
  rw [if_neg (by simp [hb]), if_pos hrc, hu]

theorem destroyOp_del (s : St) (u : String) (fid : Nat) (r : FileRec)
    (qs1 : List Quota)
    (hfind : s.files.find? (fun x => x.fid == fid) = some r)
    (hb : (r.is_ref && r.orig.isSome) = false)
    (hrc : ¬(r.rc > 1))
    (hu : update_storage_usage s.quotas u (-(r.size : Int)) = .ok qs1) :
    destroyOp s u fid = (.ok (), ⟨removeCascade s.files r.fid, qs1, s.nextId⟩) := by
  unfold destroyOp
  rw [hfind]
  dsimp only
  rw [if_neg (by simp [hb]), if_neg hrc, hu]

theorem destroyOp_del_uerr (s : St) (u : String) (fid : Nat) (r : FileRec)
    (e : Unit)
    (hfind : s.files.find? (fun x => x.fid == fid) = some r)
    (hb : (r.is_ref && r.orig.isSome) = false)
    (hrc : ¬(r.rc > 1))
    (hu : update_storage_usage s.quotas u (-(r.size : Int)) = .error e) :
    destroyOp s u fid = (.error .dbError, s) := by
  unfold destroyOp
  rw [hfind]
  dsimp only
  rw [if_neg (by simp [hb]), if_neg hrc, hu]

theorem uploadOp_eq_vreject (s : St) (u fn ft h : String) (content : List Nat)
    (rv : Rejection) (hv : validate_file content.length ft = some rv) :
    uploadOp s u fn ft h content = (.error rv, s) := by
  unfold uploadOp
  dsimp only
  rw [hv]

theorem uploadOp_eq_qreject (s : St) (u fn ft h : String) (content : List Nat)
    (hv : validate_file content.length ft = none)
    (hc : (check_storage_quota s.quotas u content.length).1 = false) :
    uploadOp s u fn ft h content =
      (.error .quotaExceeded,
        { s with quotas := (check_storage_quota s.quotas u content.length).2 }) := by
  unfold uploadOp
  dsimp only
  rw [hv]
  dsimp only
  rw [hc]
  simp

theorem uploadOp_eq_dup (s : St) (u fn ft h : String) (content : List Nat)
    (e : FileRec)
    (hv : validate_file content.length ft = none)
    (hc : (check_storage_quota s.quotas u content.length).1 = true)
    (hex : s.files.find? (fun r => r.file_hash == h && !r.is_ref) = some e) :
    uploadOp s u fn ft h content =
      (.ok s.nextId,
        ⟨⟨s.nextId, u, fn, ft, content.length, h, true, some e.fid, 1, none⟩ ::
            s.files.map (fun x => if x.fid == e.fid then
              { x with rc := x.rc + 1 } else x),
          addUsed (check_storage_quota s.quotas u content.length).2 u
            (content.length : Int),
          s.nextId + 1⟩) := by
  unfold uploadOp
  dsimp only
  rw [hv]
  dsimp only
  rw [hc, hex]
  have hgi : getOrCreateQuota (check_storage_quota s.quotas u content.length).2 u
      = ((getOrCreateQuota s.quotas u).1, (getOrCreateQuota s.quotas u).2) :=
    getOrCreate_idem s.quotas u
  rw [hgi]
  have hc2 : hasSpaceFor (getOrCreateQuota s.quotas u).1 content.length = true :=
    hc
  dsimp only
  rw [hc2]
  simp

theorem uploadOp_eq_new (s : St) (u fn ft h : String) (content : List Nat)
    (hv : validate_file content.length ft = none)
    (hc : (check_storage_quota s.quotas u content.length).1 = true)
    (hex : s.files.find? (fun r => r.file_hash == h && !r.is_ref) = none) :
    uploadOp s u fn ft h content =
      (.ok s.nextId,
        ⟨⟨s.nextId, u, fn, ft, content.length, h, false, none, 1,
            some content⟩ :: s.files,
          addUsed (check_storage_quota s.quotas u content.length).2 u
            (content.length : Int),
          s.nextId + 1⟩) := by
  unfold uploadOp
  dsimp only
  rw [hv]
  dsimp only
  rw [hc, hex]
  have hgi : getOrCreateQuota (check_storage_quota s.quotas u content.length).2 u
      = ((getOrCreateQuota s.quotas u).1, (getOrCreateQuota s.quotas u).2) :=
    getOrCreate_idem s.quotas u
  rw [hgi]
  have hc2 : hasSpaceFor (getOrCreateQuota s.quotas u).1 content.length = true :=
    hc
  dsimp only
  rw [hc2]
  simp

/-! ## Generic counting and summing lemmas -/

theorem pairwise_key_inj {α β : Type} (key : α → β) (l : List α)
    (hp : l.Pairwise (fun a b => key a ≠ key b)) :
    ∀ a ∈ l, ∀ b ∈ l, key a = key b → a = b := by
  induction l with
  | nil => intro a ha; simp at ha
  | cons x xs ih =>
    rw [List.pairwise_cons] at hp
    intro a ha b hb hk
    rcases List.mem_cons.mp ha with ha | ha <;>
      rcases List.mem_cons.mp hb with hb | hb
    · rw [ha, hb]
    · exact absurd (ha ▸ hk) (hp.1 b hb)
    · exact absurd (hb ▸ hk).symm (hp.1 a ha)
    · exact ih hp.2 a ha b hb hk

theorem nodup_of_pairwise_key {α β : Type} (key : α → β) (l : List α)
    (hp : l.Pairwise (fun a b => key a ≠ key b)) : l.Nodup :=
  hp.imp fun {a b} hab heq => hab (by rw [heq])

theorem countP_congr_mem {α : Type} (l : List α) (p q : α → Bool)
    (h : ∀ x ∈ l, p x = q x) : l.countP p = l.countP q :=
  List.countP_congr fun x hx => by rw [h x hx]

theorem countP_except {α : Type} (l : List α) (r : α) (p q : α → Bool)
    (hnd : l.Nodup) (hr : r ∈ l) (hagree : ∀ x ∈ l, x ≠ r → p x = q x) :
    l.countP q + (if p r then 1 else 0)
      = l.countP p + (if q r then 1 else 0) := by
  induction l with
  | nil => simp at hr
  | cons a l ih =>
    rw [List.nodup_cons] at hnd
    rw [List.countP_cons, List.countP_cons]
    rcases List.mem_cons.mp hr with hra | hrl
    · subst hra
      have hcongr : l.countP p = l.countP q :=
        countP_congr_mem l p q fun x hx =>
          hagree x (List.mem_cons_of_mem _ hx) (fun hxr => hnd.1 (hxr ▸ hx))
      omega
    · have har : a ≠ r := fun h => hnd.1 (h ▸ hrl)
      have hpa : p a = q a := hagree a (List.mem_cons_self _ _) har
      have hrec := ih hnd.2 hrl
        (fun x hx hxr => hagree x (List.mem_cons_of_mem _ hx) hxr)
      rw [hpa]
      omega

theorem sum_map_congr_mem {α : Type} (l : List α) (f g : α → Nat)
    (h : ∀ x ∈ l, f x = g x) : (l.map f).sum = (l.map g).sum := by
  induction l with
  | nil => rfl
  | cons a l ih =>
    simp only [List.map_cons, List.sum_cons]
    rw [h a (List.mem_cons_self _ _),
      ih fun x hx => h x (List.mem_cons_of_mem _ hx)]

theorem sum_map_except {α : Type} (l : List α) (r : α) (f g : α → Nat)
    (hnd : l.Nodup) (hr : r ∈ l) (hagree : ∀ x ∈ l, x ≠ r → f x = g x) :
    (l.map g).sum + f r = (l.map f).sum + g r := by
  induction l with
  | nil => simp at hr
  | cons a l ih =>
    rw [List.nodup_cons] at hnd
    simp only [List.map_cons, List.sum_cons]
    rcases List.mem_cons.mp hr with hra | hrl
    · subst hra
      have hcongr : (l.map f).sum = (l.map g).sum :=
        sum_map_congr_mem l f g fun x hx =>
          hagree x (List.mem_cons_of_mem _ hx) (fun hxr => hnd.1 (hxr ▸ hx))
      omega
    · have har : a ≠ r := fun h => hnd.1 (h ▸ hrl)
      have hfa : f a = g a := hagree a (List.mem_cons_self _ _) har
      have hrec := ih hnd.2 hrl
        (fun x hx hxr => hagree x (List.mem_cons_of_mem _ hx) hxr)
      omega

theorem sum_map_filter {α : Type} (l : List α) (q : α → Bool) (f : α → Nat) :
    ((l.filter q).map f).sum = (l.map (fun x => if q x then f x else 0)).sum := by
  induction l with
  | nil => rfl
  | cons a l ih =>
    by_cases hq : q a
    · simp only [List.filter_cons, hq, if_pos, List.map_cons, List.sum_cons]
      rw [ih]
    · simp only [List.filter_cons, hq, Bool.false_eq_true, if_false,
        List.map_cons, List.sum_cons]
      rw [ih]
      simp

theorem sum_map_ge {α : Type} (l : List α) (f : α → Nat) (r : α) (hr : r ∈ l) :
    f r ≤ (l.map f).sum := by
  induction l with
  | nil => simp at hr
  | cons a l ih =>
    simp only [List.map_cons, List.sum_cons]
    rcases List.mem_cons.mp hr with hra | hrl
    · rw [hra]; omega
    · have := ih hrl; omega

theorem liveSum_eq_sum_map (s : St) (v : String) :
    liveSum s v = (s.files.map (sizeIf v)).sum := by
  unfold liveSum sizeIf
  rw [sum_map_filter]

/-! ## Preservation helpers for the quota table -/

theorem check_snd_eq (qs : List Quota) (u : String) (sz : Nat) :
    (check_storage_quota qs u sz).2 = (getOrCreateQuota qs u).2 := rfl

theorem getOrCreate_quotaNd (qs : List Quota) (u : String)
    (h : qs.Pairwise (fun a b => a.user ≠ b.user)) :
    (getOrCreateQuota qs u).2.Pairwise (fun a b => a.user ≠ b.user) := by
  unfold getOrCreateQuota
  cases hf : qs.find? (fun q => q.user == u) with
  | some q => simpa using h
  | none =>
    simp only
    rw [List.pairwise_append]
    refine ⟨h, List.pairwise_singleton _ _, ?_⟩
    intro a ha b hb
    have hau : ¬(a.user == u) = true := List.find?_eq_none.mp hf a ha
    have hbu : b.user = u := by
      rw [List.mem_singleton.mp hb]
    rw [hbu]
    intro heq
    exact hau (by simp [heq])

theorem getOrCreate_quotaOk (qs : List Quota) (u : String)
    (h : ∀ q ∈ qs, 0 ≤ q.used ∧ q.used ≤ q.limit ∧
      q.limit = (USER_STORAGE_QUOTA : Int)) :
    ∀ q ∈ (getOrCreateQuota qs u).2, 0 ≤ q.used ∧ q.used ≤ q.limit ∧
      q.limit = (USER_STORAGE_QUOTA : Int) := by
  unfold getOrCreateQuota
  cases hf : qs.find? (fun q => q.user == u) with
  | some q => simpa using h
  | none =>
    simp only
    intro q hq
    rcases List.mem_append.mp hq with hq | hq
    · exact h q hq
    · rw [List.mem_singleton.mp hq]
      refine ⟨le_refl 0, ?_, rfl⟩
      show (0 : Int) ≤ (USER_STORAGE_QUOTA : Int)
      positivity

theorem getOrCreate_userExists (qs : List Quota) (u v : String)
    (h : ∃ q ∈ qs, q.user = v) :
    ∃ q ∈ (getOrCreateQuota qs u).2, q.user = v := by
  unfold getOrCreateQuota
  cases hf : qs.find? (fun q => q.user == u) with
  | some q => simpa using h
  | none =>
    simp only
    obtain ⟨q, hq, hqv⟩ := h
    exact ⟨q, List.mem_append.mpr (Or.inl hq), hqv⟩

theorem getOrCreate_userExists_self (qs : List Quota) (u : String) :
    ∃ q ∈ (getOrCreateQuota qs u).2, q.user = u := by
  refine ⟨(getOrCreateQuota qs u).1,
    List.mem_of_find?_eq_some (getOrCreate_find_self qs u), ?_⟩
  have := List.find?_some (getOrCreate_find_self qs u)
  simpa using this

theorem map_userExists (qs : List Quota) (f : Quota → Quota)
    (hf : ∀ x, (f x).user = x.user) (v : String)
    (h : ∃ q ∈ qs, q.user = v) : ∃ q ∈ qs.map f, q.user = v := by
  obtain ⟨q, hq, hqv⟩ := h
  exact ⟨f q, List.mem_map_of_mem f hq, by rw [hf, hqv]⟩

theorem pairwise_user_map (qs : List Quota) (f : Quota → Quota)
    (hf : ∀ x, (f x).user = x.user)
    (h : qs.Pairwise (fun a b => a.user ≠ b.user)) :
    (qs.map f).Pairwise (fun a b => a.user ≠ b.user) :=
  List.Pairwise.map f (fun a b hab => by rw [hf, hf]; exact hab) h

theorem addUsed_user_eq (u : String) (d : Int) (x : Quota) :
    ((fun q => if q.user == u then { q with used := q.used + d } else q) x).user
      = x.user := by
  by_cases hx : (x.user == u) = true <;> simp [hx]

theorem addUsed_quotaOk (qs : List Quota) (u : String) (d : Int)
    (h : ∀ q ∈ qs, 0 ≤ q.used ∧ q.used ≤ q.limit ∧
      q.limit = (USER_STORAGE_QUOTA : Int))
    (hd : ∀ q ∈ qs, q.user = u → 0 ≤ q.used + d ∧ q.used + d ≤ q.limit) :
    ∀ q ∈ addUsed qs u d, 0 ≤ q.used ∧ q.used ≤ q.limit ∧
      q.limit = (USER_STORAGE_QUOTA : Int) := by
  intro q hq
  unfold addUsed at hq
  rw [List.mem_map] at hq
  obtain ⟨x, hx, hxq⟩ := hq
  by_cases hxu : (x.user == u) = true
  · rw [← hxq, if_pos hxu]
    have hxu2 : x.user = u := by simpa using hxu
    have hb := hd x hx hxu2
    have ho := h x hx
    exact ⟨hb.1, hb.2, ho.2.2⟩
  · rw [← hxq, if_neg hxu]
    exact h x hx

theorem setUsed_quotaOk (qs : List Quota) (u : String) (v : Int)
    (hv0 : 0 ≤ v) (hvl : v ≤ (USER_STORAGE_QUOTA : Int))
    (h : ∀ q ∈ qs, 0 ≤ q.used ∧ q.used ≤ q.limit ∧
      q.limit = (USER_STORAGE_QUOTA : Int)) :
    ∀ q ∈ setUsed qs u v, 0 ≤ q.used ∧ q.used ≤ q.limit ∧
      q.limit = (USER_STORAGE_QUOTA : Int) := by
  intro q hq
  unfold setUsed at hq
  rw [List.mem_map] at hq
  obtain ⟨x, hx, hxq⟩ := hq
  by_cases hxu : (x.user == u) = true
  · rw [← hxq, if_pos hxu]
    have ho := h x hx
    exact ⟨hv0, by rw [ho.2.2]; exact hvl, ho.2.2⟩
  · rw [← hxq, if_neg hxu]
    exact h x hx

/-- A successful `update_storage_usage` with a release (`delta ≤ 0`)
preserves the quota-table invariants. -/
theorem update_ok_quota_inv (qs : List Quota) (u : String) (delta : Int)
    (qs1 : List Quota) (hdelta : delta ≤ 0)
    (hnd : qs.Pairwise (fun a b => a.user ≠ b.user))
    (hok : ∀ q ∈ qs, 0 ≤ q.used ∧ q.used ≤ q.limit ∧
      q.limit = (USER_STORAGE_QUOTA : Int))
    (h : update_storage_usage qs u delta = .ok qs1) :
    qs1.Pairwise (fun a b => a.user ≠ b.user) ∧
    (∀ q ∈ qs1, 0 ≤ q.used ∧ q.used ≤ q.limit ∧
      q.limit = (USER_STORAGE_QUOTA : Int)) ∧
    (∀ v, (∃ q ∈ qs, q.user = v) → ∃ q ∈ qs1, q.user = v) := by
  have hnd2 := getOrCreate_quotaNd qs u hnd
  have hok2 := getOrCreate_quotaOk qs u hok
  have hused := getOrCreate_used_self qs u
  have husedOk : 0 ≤ (getOrCreateQuota qs u).1.used ∧
      (getOrCreateQuota qs u).1.used ≤ (USER_STORAGE_QUOTA : Int) := by
    have hmem := List.mem_of_find?_eq_some (getOrCreate_find_self qs u)
    have := hok2 _ hmem
    exact ⟨this.1, by rw [← this.2.2]; exact this.2.1⟩
  unfold update_storage_usage at h
  by_cases h0 : (getOrCreateQuota qs u).1.used + delta < 0
  · rw [if_pos h0] at h
    cases h
    refine ⟨pairwise_user_map _ _ (setUsed_user_pred u 0) hnd2,
      setUsed_quotaOk _ _ _ (le_refl 0) (by positivity) hok2, ?_⟩
    intro v hv
    exact map_userExists _ _ (setUsed_user_pred u 0) v
      (getOrCreate_userExists qs u v hv)
  · rw [if_neg h0] at h
    by_cases hmax : (getOrCreateQuota qs u).1.used + delta > MAX_SAFE_STORAGE
    · rw [if_pos hmax] at h
      cases h
    · rw [if_neg hmax] at h
      cases h
      refine ⟨pairwise_user_map _ _ (setUsed_user_pred u _) hnd2,
        setUsed_quotaOk _ _ _ (by omega)
          (by have := husedOk.2; omega) hok2, ?_⟩
      intro v hv
      exact map_userExists _ _ (setUsed_user_pred u _) v
        (getOrCreate_userExists qs u v hv)

/-! ## Preservation of the invariants by upload -/

theorem bumpAdd_fields (t : Nat) (x : FileRec) :
    (if x.fid == t then { x with rc := x.rc + 1 } else x).fid = x.fid ∧
    (if x.fid == t then { x with rc := x.rc + 1 } else x).user = x.user ∧
    (if x.fid == t then { x with rc := x.rc + 1 } else x).size = x.size ∧
    (if x.fid == t then { x with rc := x.rc + 1 } else x).file_hash
      = x.file_hash ∧
    (if x.fid == t then { x with rc := x.rc + 1 } else x).is_ref = x.is_ref ∧
    (if x.fid == t then { x with rc := x.rc + 1 } else x).orig = x.orig := by
  by_cases hx : (x.fid == t) = true <;> simp [hx]

theorem good_state_dup (s : St) (z w : Bool) (hg : GoodPack (s, z, w))
    (u fn ft h : String) (content : List Nat) (e : FileRec)
    (hc : (check_storage_quota s.quotas u content.length).1 = true)
    (hex : s.files.find? (fun r => r.file_hash == h && !r.is_ref) = some e) :
    GoodPack ((⟨⟨s.nextId, u, fn, ft, content.length, h, true, some e.fid, 1,
        none⟩ :: s.files.map (fun x => if x.fid == e.fid then
          { x with rc := x.rc + 1 } else x),
      addUsed (getOrCreateQuota s.quotas u).2 u (content.length : Int),
      s.nextId + 1⟩ : St), z, w) := by
  obtain ⟨hinv, hrc, hq⟩ := hg
  have hinv : InvSt s := hinv
  have hrc : z = true → CleanRc s := hrc
  have hq : z = true → w = true → CleanQ s := hq
  have he_mem : e ∈ s.files := List.mem_of_find?_eq_some hex
  have he_pred := List.find?_some hex
  rw [Bool.and_eq_true] at he_pred
  have he_hash : e.file_hash = h := by simpa using he_pred.1
  have he_ref : e.is_ref = false := by simpa using he_pred.2
  have hcsp : (getOrCreateQuota s.quotas u).1.used + (content.length : Int)
      ≤ (getOrCreateQuota s.quotas u).1.limit := by
    have hb : hasSpaceFor (getOrCreateQuota s.quotas u).1 content.length
        = true := hc
    exact of_decide_eq_true hb
  refine ⟨⟨?_, ?_, ?_, ?_, ?_, ?_, ?_⟩, ?_, ?_⟩
  · intro r hr
    rcases List.mem_cons.mp hr with hr | hr
    · rw [hr]
      show s.nextId < s.nextId + 1
      omega
    · rw [List.mem_map] at hr
      obtain ⟨x, hx, hxr⟩ := hr
      rw [← hxr, (bumpAdd_fields e.fid x).1]
      have := hinv.fidLt x hx
      show x.fid < s.nextId + 1
      omega
  · rw [List.pairwise_cons]
    constructor
    · intro b hb
      rw [List.mem_map] at hb
      obtain ⟨x, hx, hxb⟩ := hb
      rw [← hxb, (bumpAdd_fields e.fid x).1]
      have := hinv.fidLt x hx
      show s.nextId ≠ x.fid
      omega
    · exact List.Pairwise.map _ (fun a b hab => by
        rw [(bumpAdd_fields e.fid a).1, (bumpAdd_fields e.fid b).1]
        exact hab) hinv.fidNd
  · intro r hr
    rcases List.mem_cons.mp hr with hr | hr
    · rw [hr]
      constructor
      · intro _
        refine ⟨(if e.fid == e.fid then { e with rc := e.rc + 1 } else e),
          List.mem_cons_of_mem _ (List.mem_map_of_mem _ he_mem), ?_, ?_, ?_⟩
        · rw [(bumpAdd_fields e.fid e).1]
        · rw [(bumpAdd_fields e.fid e).2.2.2.2.1]
          exact he_ref
        · rw [(bumpAdd_fields e.fid e).2.2.2.1]
          exact he_hash
      · intro hfalse
        simp at hfalse
    · rw [List.mem_map] at hr
      obtain ⟨x, hx, hxr⟩ := hr
      rw [← hxr]
      constructor
      · intro href
        rw [(bumpAdd_fields e.fid x).2.2.2.2.1] at href
        obtain ⟨o, ho, horig, honr, hohash⟩ := (hinv.refOk x hx).1 href
        refine ⟨(if o.fid == e.fid then { o with rc := o.rc + 1 } else o),
          List.mem_cons_of_mem _ (List.mem_map_of_mem _ ho), ?_, ?_, ?_⟩
        · rw [(bumpAdd_fields e.fid x).2.2.2.2.2, (bumpAdd_fields e.fid o).1]
          exact horig
        · rw [(bumpAdd_fields e.fid o).2.2.2.2.1]
          exact honr
        · rw [(bumpAdd_fields e.fid o).2.2.2.1,
            (bumpAdd_fields e.fid x).2.2.2.1]
          exact hohash
      · intro hnref
        rw [(bumpAdd_fields e.fid x).2.2.2.2.1] at hnref
        rw [(bumpAdd_fields e.fid x).2.2.2.2.2]
        exact (hinv.refOk x hx).2 hnref
  · intro a ha b hb hna hnb hh
    rcases List.mem_cons.mp ha with ha | ha
    · rw [ha] at hna
      simp at hna
    · rcases List.mem_cons.mp hb with hb | hb
      · rw [hb] at hnb
        simp at hnb
      · rw [List.mem_map] at ha hb
        obtain ⟨xa, hxa, hxar⟩ := ha
        obtain ⟨xb, hxb, hxbr⟩ := hb
        rw [← hxar] at hna hh ⊢
        rw [← hxbr] at hnb hh ⊢
        rw [(bumpAdd_fields e.fid xa).2.2.2.2.1] at hna
        rw [(bumpAdd_fields e.fid xb).2.2.2.2.1] at hnb
        rw [(bumpAdd_fields e.fid xa).2.2.2.1,
          (bumpAdd_fields e.fid xb).2.2.2.1] at hh
        have hab := hinv.hashUq xa hxa xb hxb hna hnb hh
        rw [hab]
  · exact pairwise_user_map _ _ (addUsed_user_eq u _)
      (getOrCreate_quotaNd _ _ hinv.quotaNd)
  · refine addUsed_quotaOk _ _ _ (getOrCreate_quotaOk _ _ hinv.quotaOk) ?_
    intro q hq2 hqu
    have huinj := pairwise_key_inj Quota.user (getOrCreateQuota s.quotas u).2
      (getOrCreate_quotaNd s.quotas u hinv.quotaNd)
    have hg1mem : (getOrCreateQuota s.quotas u).1
        ∈ (getOrCreateQuota s.quotas u).2 :=
      List.mem_of_find?_eq_some (getOrCreate_find_self s.quotas u)
    have hg1user : (getOrCreateQuota s.quotas u).1.user = u := by
      simpa using List.find?_some (getOrCreate_find_self s.quotas u)
    have hqeq : q = (getOrCreateQuota s.quotas u).1 :=
      huinj q hq2 _ hg1mem (by rw [hqu, hg1user])
    rw [hqeq]
    have hok := getOrCreate_quotaOk _ u hinv.quotaOk _ hg1mem
    constructor
    · have hnn : (0 : Int) ≤ (content.length : Int) := by positivity
      omega
    · exact hcsp
  · intro r hr
    rcases List.mem_cons.mp hr with hr | hr
    · rw [hr]
      exact map_userExists _ _ (addUsed_user_eq u _) u
        (getOrCreate_userExists_self s.quotas u)
    · rw [List.mem_map] at hr
      obtain ⟨x, hx, hxr⟩ := hr
      rw [← hxr, (bumpAdd_fields e.fid x).2.1]
      exact map_userExists _ _ (addUsed_user_eq u _) x.user
        (getOrCreate_userExists _ _ _ (hinv.fileQuota x hx))
  · intro hz
    have hcrc := hrc hz
    have hrt : ∀ t : Nat,
        List.countP (fun r => r.orig == some t)
          (((⟨s.nextId, u, fn, ft, content.length, h, true, some e.fid, 1,
              none⟩ : FileRec)) :: s.files.map (fun x =>
            if x.fid == e.fid then { x with rc := x.rc + 1 } else x))
        = refsTo s t + (if (some e.fid == some t) = true then 1 else 0) := by
      intro t
      rw [List.countP_cons, List.countP_map]
      congr 1
      exact countP_congr_mem _ _ _ (fun x hx => by
        show ((if x.fid == e.fid then { x with rc := x.rc + 1 } else x).orig
          == some t) = (x.orig == some t)
        rw [(bumpAdd_fields e.fid x).2.2.2.2.2])
    intro o ho honr
    rcases List.mem_cons.mp ho with ho | ho
    · rw [ho] at honr
      simp at honr
    · rw [List.mem_map] at ho
      obtain ⟨x, hx, hxo⟩ := ho
      rw [← hxo] at honr ⊢
      rw [(bumpAdd_fields e.fid x).2.2.2.2.1] at honr
      have hold := hcrc x hx honr
      show _ = 1 + List.countP _ _
      rw [(bumpAdd_fields e.fid x).1, hrt x.fid]
      by_cases hxe : (x.fid == e.fid) = true
      · rw [if_pos hxe]
        have hxfe : x.fid = e.fid := by simpa using hxe
        rw [if_pos (by simp [hxfe] : (some e.fid == some x.fid) = true)]
        show x.rc + 1 = 1 + (refsTo s x.fid + 1)
        omega
      · rw [if_neg hxe]
        have hxfe : ¬(x.fid = e.fid) := by simpa using hxe
        rw [if_neg (by simp [Ne.symm hxfe] :
          ¬((some e.fid == some x.fid) = true))]
        show x.rc = 1 + (refsTo s x.fid + 0)
        omega
  · intro hz hw v
    have hls : liveSum (⟨(⟨s.nextId, u, fn, ft, content.length, h, true,
          some e.fid, 1, none⟩ : FileRec) :: s.files.map (fun x =>
            if x.fid == e.fid then { x with rc := x.rc + 1 } else x),
        addUsed (getOrCreateQuota s.quotas u).2 u (content.length : Int),
        s.nextId + 1⟩ : St) v
        = sizeIf v ⟨s.nextId, u, fn, ft, content.length, h, true, some e.fid,
            1, none⟩ + liveSum s v := by
      rw [liveSum_eq_sum_map, liveSum_eq_sum_map]
      show (List.map (sizeIf v) (_ :: List.map _ s.files)).sum = _
      rw [List.map_cons, List.sum_cons, List.map_map]
      congr 1
      exact sum_map_congr_mem _ _ _ (fun x hx => by
        show sizeIf v (if x.fid == e.fid then { x with rc := x.rc + 1 }
          else x) = sizeIf v x
        unfold sizeIf
        rw [(bumpAdd_fields e.fid x).2.1, (bumpAdd_fields e.fid x).2.2.1])
    have hfound : (((getOrCreateQuota s.quotas u).2).find?
        (fun q => q.user == u)).isSome := by
      rw [getOrCreate_find_self]
      rfl
    show usedOfQ (addUsed (getOrCreateQuota s.quotas u).2 u
      (content.length : Int)) v = _
    rw [hls]
    by_cases hvu : v = u
    · subst hvu
      rw [usedOfQ_addUsed_self _ _ _ hfound, getOrCreate_usedOfQ]
      have hquv := hq hz hw v
      have hsz : sizeIf v ⟨s.nextId, v, fn, ft, content.length, h, true,
          some e.fid, 1, none⟩ = content.length := by
        unfold sizeIf
        simp
      rw [hsz]
      have husev : usedOfQ s.quotas v = (liveSum s v : Int) := hquv
      rw [husev]
      push_cast
      ring
    · rw [usedOfQ_addUsed_other _ _ _ _ hvu, getOrCreate_usedOfQ]
      have hsz : sizeIf v ⟨s.nextId, u, fn, ft, content.length, h, true,
          some e.fid, 1, none⟩ = 0 := by
        unfold sizeIf
        simp [Ne.symm hvu]
      rw [hsz]
      have husev : usedOfQ s.quotas v = (liveSum s v : Int) := hq hz hw v
      rw [husev]
      simp

theorem good_state_new (s : St) (z w : Bool) (hg : GoodPack (s, z, w))
    (u fn ft h : String) (content : List Nat)
    (hc : (check_storage_quota s.quotas u content.length).1 = true)
    (hex : s.files.find? (fun r => r.file_hash == h && !r.is_ref) = none) :
    GoodPack ((⟨⟨s.nextId, u, fn, ft, content.length, h, false, none, 1,
        some content⟩ :: s.files,
      addUsed (getOrCreateQuota s.quotas u).2 u (content.length : Int),
      s.nextId + 1⟩ : St), z, w) := by
  obtain ⟨hinv, hrc, hq⟩ := hg
  have hinv : InvSt s := hinv
  have hrc : z = true → CleanRc s := hrc
  have hq : z = true → w = true → CleanQ s := hq
  have hnone := List.find?_eq_none.mp hex
  have hcsp : (getOrCreateQuota s.quotas u).1.used + (content.length : Int)
      ≤ (getOrCreateQuota s.quotas u).1.limit := by
    have hb : hasSpaceFor (getOrCreateQuota s.quotas u).1 content.length
        = true := hc
    exact of_decide_eq_true hb
  refine ⟨⟨?_, ?_, ?_, ?_, ?_, ?_, ?_⟩, ?_, ?_⟩
  · intro r hr
    rcases List.mem_cons.mp hr with hr | hr
    · rw [hr]
      show s.nextId < s.nextId + 1
      omega
    · have := hinv.fidLt r hr
      show r.fid < s.nextId + 1
      omega
  · rw [List.pairwise_cons]
    constructor
    · intro b hb
      have := hinv.fidLt b hb
      show s.nextId ≠ b.fid
      omega
    · exact hinv.fidNd
  · intro r hr
    rcases List.mem_cons.mp hr with hr | hr
    · rw [hr]
      constructor
      · intro hfalse
        simp at hfalse
      · intro _
        rfl
    · constructor
      · intro href
        obtain ⟨o, ho, horig, honr, hohash⟩ := (hinv.refOk r hr).1 href
        exact ⟨o, List.mem_cons_of_mem _ ho, horig, honr, hohash⟩
      · exact (hinv.refOk r hr).2
  · intro a ha b hb hna hnb hh
    rcases List.mem_cons.mp ha with ha | ha <;>
      rcases List.mem_cons.mp hb with hb | hb
    · rw [ha, hb]
    · exfalso
      have hbh : b.file_hash = h := by
        rw [← hh, ha]
      refine hnone b hb ?_
      rw [Bool.and_eq_true]
      exact ⟨by simp [hbh], by simp [hnb]⟩
    · exfalso
      have hah : a.file_hash = h := by
        rw [hh, hb]
      refine hnone a ha ?_
      rw [Bool.and_eq_true]
      exact ⟨by simp [hah], by simp [hna]⟩
    · exact hinv.hashUq a ha b hb hna hnb hh
  · exact pairwise_user_map _ _ (addUsed_user_eq u _)
      (getOrCreate_quotaNd _ _ hinv.quotaNd)
  · refine addUsed_quotaOk _ _ _ (getOrCreate_quotaOk _ _ hinv.quotaOk) ?_
    intro q hq2 hqu
    have huinj := pairwise_key_inj Quota.user (getOrCreateQuota s.quotas u).2
      (getOrCreate_quotaNd s.quotas u hinv.quotaNd)
    have hg1mem : (getOrCreateQuota s.quotas u).1
        ∈ (getOrCreateQuota s.quotas u).2 :=
      List.mem_of_find?_eq_some (getOrCreate_find_self s.quotas u)
    have hg1user : (getOrCreateQuota s.quotas u).1.user = u := by
      simpa using List.find?_some (getOrCreate_find_self s.quotas u)
    have hqeq : q = (getOrCreateQuota s.quotas u).1 :=
      huinj q hq2 _ hg1mem (by rw [hqu, hg1user])
    rw [hqeq]
    have hok := getOrCreate_quotaOk _ u hinv.quotaOk _ hg1mem
    constructor
    · have hnn : (0 : Int) ≤ (content.length : Int) := by positivity
      omega
    · exact hcsp
  · intro r hr
    rcases List.mem_cons.mp hr with hr | hr
    · rw [hr]
      exact map_userExists _ _ (addUsed_user_eq u _) u
        (getOrCreate_userExists_self s.quotas u)
    · exact map_userExists _ _ (addUsed_user_eq u _) r.user
        (getOrCreate_userExists _ _ _ (hinv.fileQuota r hr))
  · intro hz
    have hcrc := hrc hz
    have hrt : ∀ t : Nat,
        List.countP (fun r => r.orig == some t)
          (((⟨s.nextId, u, fn, ft, content.length, h, false, none, 1,
              some content⟩ : FileRec)) :: s.files)
        = refsTo s t := by
      intro t
      rw [List.countP_cons]
      simp [refsTo]
    intro o ho honr
    rcases List.mem_cons.mp ho with ho | ho
    · rw [ho]
      show 1 = 1 + List.countP _ _
      rw [hrt]
      have hzero : refsTo s s.nextId = 0 := by
        unfold refsTo
        rw [List.countP_eq_zero]
        intro x hx hpx
        have hxorig : x.orig = some s.nextId := by simpa using hpx
        cases hxref : x.is_ref with
        | true =>
          obtain ⟨o2, ho2, horig2, _, _⟩ := (hinv.refOk x hx).1 hxref
          rw [hxorig] at horig2
          have : o2.fid = s.nextId := by
            injection horig2.symm
          have := hinv.fidLt o2 ho2
          omega
        | false =>
          rw [(hinv.refOk x hx).2 hxref] at hxorig
          cases hxorig
      show (1 : Nat) = 1 + refsTo s s.nextId
      omega
    · have hold := hcrc o ho honr
      show o.rc = 1 + List.countP _ _
      rw [hrt o.fid]
      exact hold
  · intro hz hw v
    have hls : liveSum (⟨(⟨s.nextId, u, fn, ft, content.length, h, false,
          none, 1, some content⟩ : FileRec) :: s.files,
        addUsed (getOrCreateQuota s.quotas u).2 u (content.length : Int),
        s.nextId + 1⟩ : St) v
        = sizeIf v ⟨s.nextId, u, fn, ft, content.length, h, false, none,
            1, some content⟩ + liveSum s v := by
      rw [liveSum_eq_sum_map, liveSum_eq_sum_map]
      show (List.map (sizeIf v) (_ :: s.files)).sum = _
      rw [List.map_cons, List.sum_cons]
    have hfound : (((getOrCreateQuota s.quotas u).2).find?
        (fun q => q.user == u)).isSome := by
      rw [getOrCreate_find_self]
      rfl
    show usedOfQ (addUsed (getOrCreateQuota s.quotas u).2 u
      (content.length : Int)) v = _
    rw [hls]
    by_cases hvu : v = u
    · subst hvu
      rw [usedOfQ_addUsed_self _ _ _ hfound, getOrCreate_usedOfQ]
      have hsz : sizeIf v ⟨s.nextId, v, fn, ft, content.length, h, false,
          none, 1, some content⟩ = content.length := by
        unfold sizeIf
        simp
      rw [hsz]
      have husev : usedOfQ s.quotas v = (liveSum s v : Int) := hq hz hw v
      rw [husev]
      push_cast
      ring
    · rw [usedOfQ_addUsed_other _ _ _ _ hvu, getOrCreate_usedOfQ]
      have hsz : sizeIf v ⟨s.nextId, u, fn, ft, content.length, h, false,
          none, 1, some content⟩ = 0 := by
        unfold sizeIf
        simp [Ne.symm hvu]
      rw [hsz]
      have husev : usedOfQ s.quotas v = (liveSum s v : Int) := hq hz hw v
      rw [husev]
      simp

theorem good_upload (s : St) (z w : Bool) (hg : GoodPack (s, z, w))
    (u fn ft h : String) (content : List Nat) :
    GoodPack ((uploadOp s u fn ft h content).2, z, w) := by
  cases hv : validate_file content.length ft with
  | some rv =>
    rw [uploadOp_eq_vreject s u fn ft h content rv hv]
    exact hg
  | none =>
    cases hc : (check_storage_quota s.quotas u content.length).1 with
    | false =>
      rw [uploadOp_eq_qreject s u fn ft h content hv hc]
      obtain ⟨hinv, hrc, hq⟩ := hg
      have hinv : InvSt s := hinv
      have hrc : z = true → CleanRc s := hrc
      have hq : z = true → w = true → CleanQ s := hq
      rw [check_snd_eq]
      dsimp only
      refine ⟨⟨hinv.fidLt, hinv.fidNd, hinv.refOk, hinv.hashUq,
        getOrCreate_quotaNd _ _ hinv.quotaNd,
        getOrCreate_quotaOk _ _ hinv.quotaOk, ?_⟩, ?_, ?_⟩
      · intro r hr
        exact getOrCreate_userExists _ _ _ (hinv.fileQuota r hr)
      · intro hz
        exact hrc hz
      · intro hz hw v
        show usedOfQ (getOrCreateQuota s.quotas u).2 v = (liveSum s v : Int)
        rw [getOrCreate_usedOfQ]
        exact hq hz hw v
    | true =>
      cases hex : s.files.find? (fun r => r.file_hash == h && !r.is_ref) with
      | some e =>
        rw [uploadOp_eq_dup s u fn ft h content e hv hc hex, check_snd_eq]
        dsimp only
        exact good_state_dup s z w hg u fn ft h content e hc hex
      | none =>
        rw [uploadOp_eq_new s u fn ft h content hv hc hex, check_snd_eq]
        dsimp only
        exact good_state_new s z w hg u fn ft h content hc hex

/-! ## Preservation of the invariants by destroy -/

theorem goodPack_mono (s : St) (z w b c : Bool) (hg : GoodPack (s, z, w)) :
    GoodPack (s, z && b, w && c) := by
  obtain ⟨hinv, hrc, hq⟩ := hg
  refine ⟨hinv, ?_, ?_⟩
  · intro hz
    rw [Bool.and_eq_true] at hz
    exact hrc hz.1
  · intro hz hw
    rw [Bool.and_eq_true] at hz hw
    exact hq hz.1 hw.1

theorem bumpSub_fields (t : Nat) (x : FileRec) :
    (if x.fid == t then { x with rc := x.rc - 1 } else x).fid = x.fid ∧
    (if x.fid == t then { x with rc := x.rc - 1 } else x).user = x.user ∧
    (if x.fid == t then { x with rc := x.rc - 1 } else x).size = x.size ∧
    (if x.fid == t then { x with rc := x.rc - 1 } else x).file_hash
      = x.file_hash ∧
    (if x.fid == t then { x with rc := x.rc - 1 } else x).is_ref = x.is_ref ∧
    (if x.fid == t then { x with rc := x.rc - 1 } else x).orig = x.orig := by
  by_cases hx : (x.fid == t) = true <;> simp [hx]

/-- Nothing may reference a reference row: `original_file` targets are
non-reference rows. -/
theorem no_refs_to_ref (s : St) (hinv : InvSt s) (r : FileRec)
    (hr : r ∈ s.files) (href : r.is_ref = true) :
    ∀ x ∈ s.files, ¬(x.orig = some r.fid) := by
  intro x hx hxo
  have hfinj := pairwise_key_inj FileRec.fid s.files hinv.fidNd
  cases hxref : x.is_ref with
  | true =>
    obtain ⟨o2, ho2, horig2, honr2, _⟩ := (hinv.refOk x hx).1 hxref
    rw [hxo] at horig2
    have ho2fid : r.fid = o2.fid := by injection horig2
    have : o2 = r := hfinj o2 ho2 r hr ho2fid.symm
    rw [this] at honr2
    rw [href] at honr2
    cases honr2
  | false =>
    rw [(hinv.refOk x hx).2 hxref] at hxo
    cases hxo

theorem refsTo_after_remove (l : List FileRec) (r : FileRec)
    (F : FileRec → FileRec)
    (hF : ∀ x, (F x).orig = x.orig ∧ (F x).fid = x.fid)
    (hnd : l.Nodup)
    (hfinj : ∀ a ∈ l, ∀ b ∈ l, a.fid = b.fid → a = b)
    (hr : r ∈ l) (hnp : ∀ x ∈ l, ¬(x.orig = some r.fid)) (t : Nat) :
    List.countP (fun y => y.orig == some t)
        ((l.map F).filter
          (fun y => !(y.fid == r.fid) && !(y.orig == some r.fid)))
      + (if (r.orig == some t) = true then 1 else 0)
    = List.countP (fun y => y.orig == some t) l := by
  rw [List.countP_filter, List.countP_map]
  have hstep : List.countP ((fun y => (y.orig == some t) &&
        (!(y.fid == r.fid) && !(y.orig == some r.fid))) ∘ F) l
      = List.countP (fun x => (x.orig == some t) &&
        (!(x.fid == r.fid) && !(x.orig == some r.fid))) l := by
    refine countP_congr_mem _ _ _ (fun x hx => ?_)
    show (((F x).orig == some t) && (!((F x).fid == r.fid)
      && !((F x).orig == some r.fid))) = _
    rw [(hF x).1, (hF x).2]
  rw [hstep]
  have hagree : ∀ x ∈ l, x ≠ r →
      (fun x => (x.orig == some t) && (!(x.fid == r.fid)
        && !(x.orig == some r.fid))) x = (fun y => y.orig == some t) x := by
    intro x hx hxr
    have h1 : (x.fid == r.fid) = false := by
      rw [beq_eq_false_iff_ne]
      intro hfe
      exact hxr (hfinj x hx r hr hfe)
    have h2 : (x.orig == some r.fid) = false := by
      rw [beq_eq_false_iff_ne]
      exact hnp x hx
    simp [h1, h2]
  have hexc := countP_except l r
    (fun x => (x.orig == some t) && (!(x.fid == r.fid)
      && !(x.orig == some r.fid)))
    (fun y => y.orig == some t) hnd hr hagree
  by_cases hpt : (r.orig == some t) = true
  · simp only [hpt, beq_self_eq_true, Bool.not_true, Bool.false_and,
      Bool.and_false, Bool.true_and, if_true, if_false,
      Bool.false_eq_true] at hexc ⊢
    omega
  · simp only [hpt, beq_self_eq_true, Bool.not_true, Bool.false_and,
      Bool.and_false, Bool.false_and, if_false, Bool.false_eq_true] at hexc ⊢
    omega

theorem liveSum_after_remove (l : List FileRec) (r : FileRec)
    (F : FileRec → FileRec)
    (hF : ∀ x, (F x).user = x.user ∧ (F x).size = x.size ∧
      (F x).fid = x.fid ∧ (F x).orig = x.orig)
    (hnd : l.Nodup)
    (hfinj : ∀ a ∈ l, ∀ b ∈ l, a.fid = b.fid → a = b)
    (hr : r ∈ l) (hnp : ∀ x ∈ l, ¬(x.orig = some r.fid)) (v : String) :
    ((((l.map F).filter
        (fun y => !(y.fid == r.fid) && !(y.orig == some r.fid))).map
          (sizeIf v)).sum) + sizeIf v r
      = (l.map (sizeIf v)).sum := by
  rw [sum_map_filter, List.map_map]
  have hstep : (l.map ((fun y => if (!(y.fid == r.fid)
        && !(y.orig == some r.fid)) = true then sizeIf v y else 0) ∘ F)).sum
      = (l.map (fun x => if (!(x.fid == r.fid)
        && !(x.orig == some r.fid)) = true then sizeIf v x else 0)).sum := by
    refine sum_map_congr_mem _ _ _ (fun x hx => ?_)
    show (if (!((F x).fid == r.fid) && !((F x).orig == some r.fid)) = true
      then sizeIf v (F x) else 0) = _
    have hsz : sizeIf v (F x) = sizeIf v x := by
      unfold sizeIf
      rw [(hF x).1, (hF x).2.1]
    rw [(hF x).2.2.1, (hF x).2.2.2, hsz]
  rw [hstep]
  have hagree : ∀ x ∈ l, x ≠ r →
      (fun x => if (!(x.fid == r.fid) && !(x.orig == some r.fid)) = true
        then sizeIf v x else 0) x = sizeIf v x := by
    intro x hx hxr
    have h1 : (x.fid == r.fid) = false := by
      rw [beq_eq_false_iff_ne]
      intro hfe
      exact hxr (hfinj x hx r hr hfe)
    have h2 : (x.orig == some r.fid) = false := by
      rw [beq_eq_false_iff_ne]
      exact hnp x hx
    simp [h1, h2]
  have hexc := sum_map_except l r
    (fun x => if (!(x.fid == r.fid) && !(x.orig == some r.fid)) = true
      then sizeIf v x else 0) (sizeIf v) hnd hr hagree
  simp only [beq_self_eq_true, Bool.not_true, Bool.false_and, if_false,
    Bool.false_eq_true] at hexc
  omega

theorem good_state_destroy_ref (s : St) (z w : Bool) (hg : GoodPack (s, z, w))
    (u : String) (fid : Nat) (r o : FileRec) (qs1 : List Quota)
    (hfind : s.files.find? (fun x => x.fid == fid) = some r)
    (hb : (r.is_ref && r.orig.isSome) = true)
    (ho : s.files.find? (fun x => some x.fid == r.orig) = some o)
    (hu : update_storage_usage s.quotas u (-(r.size : Int)) = .ok qs1) :
    GoodPack ((⟨removeCascade (decRc s.files o.fid) r.fid, qs1, s.nextId⟩ : St),
      z, w && (r.user == u)) := by
  obtain ⟨hinv, hrc, hq⟩ := hg
  have hinv : InvSt s := hinv
  have hrc : z = true → CleanRc s := hrc
  have hq : z = true → w = true → CleanQ s := hq
  rw [Bool.and_eq_true] at hb
  have hrref : r.is_ref = true := hb.1
  have hr_mem : r ∈ s.files := List.mem_of_find?_eq_some hfind
  have ho_mem : o ∈ s.files := List.mem_of_find?_eq_some ho
  have horig : r.orig = some o.fid := by
    have := List.find?_some ho
    simpa using (by simpa using this : some o.fid = r.orig).symm
  have hfinj := pairwise_key_inj FileRec.fid s.files hinv.fidNd
  have hnd := nodup_of_pairwise_key FileRec.fid s.files hinv.fidNd
  have hnp := no_refs_to_ref s hinv r hr_mem hrref
  have hFdec : ∀ x : FileRec, ((if x.fid == o.fid then { x with rc := x.rc - 1 }
      else x) : FileRec).orig = x.orig ∧
      (if x.fid == o.fid then { x with rc := x.rc - 1 } else x).fid = x.fid :=
    fun x => ⟨(bumpSub_fields o.fid x).2.2.2.2.2, (bumpSub_fields o.fid x).1⟩
  have hquota := update_ok_quota_inv s.quotas u (-(r.size : Int)) qs1
    (by omega) hinv.quotaNd hinv.quotaOk hu
  have hmemD : ∀ y ∈ removeCascade (decRc s.files o.fid) r.fid,
      ∃ x ∈ s.files, (if x.fid == o.fid then { x with rc := x.rc - 1 }
        else x) = y := by
    intro y hy
    unfold removeCascade decRc at hy
    have := (List.mem_filter.mp hy).1
    rw [List.mem_map] at this
    obtain ⟨x, hx, hxy⟩ := this
    exact ⟨x, hx, hxy⟩
  refine ⟨⟨?_, ?_, ?_, ?_, ?_, ?_, ?_⟩, ?_, ?_⟩
  · intro y hy
    obtain ⟨x, hx, hxy⟩ := hmemD y hy
    show y.fid < s.nextId
    rw [← hxy, (bumpSub_fields o.fid x).1]
    exact hinv.fidLt x hx
  · unfold removeCascade decRc
    exact List.Pairwise.filter _ (List.Pairwise.map _ (fun a b hab => by
      rw [(bumpSub_fields o.fid a).1, (bumpSub_fields o.fid b).1]
      exact hab) hinv.fidNd)
  · intro y hy
    obtain ⟨x, hx, hxy⟩ := hmemD y hy
    constructor
    · intro hyref
      rw [← hxy] at hyref
      rw [(bumpSub_fields o.fid x).2.2.2.2.1] at hyref
      obtain ⟨o2, ho2, horig2, honr2, hohash2⟩ := (hinv.refOk x hx).1 hyref
      refine ⟨(if o2.fid == o.fid then { o2 with rc := o2.rc - 1 } else o2),
        ?_, ?_, ?_, ?_⟩
      · unfold removeCascade decRc
        rw [List.mem_filter]
        refine ⟨List.mem_map_of_mem _ ho2, ?_⟩
        rw [Bool.and_eq_true]
        constructor
        · rw [(bumpSub_fields o.fid o2).1]
          simp only [Bool.not_eq_true']
          rw [beq_eq_false_iff_ne]
          intro hfe
          have : o2 = r := hfinj o2 ho2 r hr_mem hfe
          rw [this, hrref] at honr2
          cases honr2
        · rw [(bumpSub_fields o.fid o2).2.2.2.2.2]
          simp only [Bool.not_eq_true']
          rw [beq_eq_false_iff_ne]
          rw [(hinv.refOk o2 ho2).2 honr2]
          intro hc
          cases hc
      · rw [← hxy, (bumpSub_fields o.fid x).2.2.2.2.2,
          (bumpSub_fields o.fid o2).1]
        exact horig2
      · rw [(bumpSub_fields o.fid o2).2.2.2.2.1]
        exact honr2
      · rw [(bumpSub_fields o.fid o2).2.2.2.1, ← hxy,
          (bumpSub_fields o.fid x).2.2.2.1]
        exact hohash2
    · intro hynref
      rw [← hxy] at hynref ⊢
      rw [(bumpSub_fields o.fid x).2.2.2.2.1] at hynref
      rw [(bumpSub_fields o.fid x).2.2.2.2.2]
      exact (hinv.refOk x hx).2 hynref
  · intro a ha b hb2 hna hnb hh
    obtain ⟨xa, hxa, hxar⟩ := hmemD a ha
    obtain ⟨xb, hxb, hxbr⟩ := hmemD b hb2
    rw [← hxar] at hna hh ⊢
    rw [← hxbr] at hnb hh ⊢
    rw [(bumpSub_fields o.fid xa).2.2.2.2.1] at hna
    rw [(bumpSub_fields o.fid xb).2.2.2.2.1] at hnb
    rw [(bumpSub_fields o.fid xa).2.2.2.1,
      (bumpSub_fields o.fid xb).2.2.2.1] at hh
    have hab := hinv.hashUq xa hxa xb hxb hna hnb hh
    rw [hab]
  · exact hquota.1
  · exact hquota.2.1
  · intro y hy
    obtain ⟨x, hx, hxy⟩ := hmemD y hy
    have : y.user = x.user := by
      rw [← hxy, (bumpSub_fields o.fid x).2.1]
    rw [this]
    exact hquota.2.2 x.user (hinv.fileQuota x hx)
  · intro hz
    have hcrc := hrc hz
    have hcount := refsTo_after_remove s.files r
      (fun x => if x.fid == o.fid then { x with rc := x.rc - 1 } else x)
      hFdec hnd hfinj hr_mem hnp
    intro y hy hynref
    obtain ⟨x, hx, hxy⟩ := hmemD y hy
    have hxnref : x.is_ref = false := by
      rw [← hxy, (bumpSub_fields o.fid x).2.2.2.2.1] at hynref
      exact hynref
    have hold := hcrc x hx hxnref
    have hyfid : y.fid = x.fid := by
      rw [← hxy, (bumpSub_fields o.fid x).1]
    show y.rc = 1 + refsTo (⟨removeCascade (decRc s.files o.fid) r.fid, qs1,
      s.nextId⟩ : St) y.fid
    have hct := hcount y.fid
    rw [hyfid] at hct ⊢
    have hre : refsTo (⟨removeCascade (decRc s.files o.fid) r.fid, qs1,
        s.nextId⟩ : St) x.fid
        = List.countP (fun q => q.orig == some x.fid)
          ((s.files.map (fun a => if a.fid == o.fid
              then { a with rc := a.rc - 1 } else a)).filter
            (fun a => !(a.fid == r.fid) && !(a.orig == some r.fid))) := rfl
    by_cases hxo : (x.fid == o.fid) = true
    · have hxofid : x.fid = o.fid := by simpa using hxo
      have hind : (r.orig == some x.fid) = true := by
        rw [horig, hxofid]
        simp
      rw [hind, if_pos rfl] at hct
      have hyrc : y.rc = x.rc - 1 := by
        rw [← hxy, if_pos hxo]
      rw [hyrc, hre]
      unfold refsTo at hold
      omega
    · have hxofid : ¬(x.fid = o.fid) := by simpa using hxo
      have hind : (r.orig == some x.fid) = false := by
        rw [horig, beq_eq_false_iff_ne]
        intro hc
        exact hxofid (by injection hc.symm)
      rw [hind] at hct
      simp only [Bool.false_eq_true, if_false] at hct
      have hyrc : y.rc = x.rc := by
        rw [← hxy, if_neg hxo]
      rw [hyrc, hre]
      unfold refsTo at hold
      omega
  · intro hz hw
    rw [Bool.and_eq_true] at hw
    have hru : r.user = u := by simpa using hw.2
    have hcq := hq hz hw.1
    have hsum := liveSum_after_remove s.files r
      (fun x => if x.fid == o.fid then { x with rc := x.rc - 1 } else x)
      (fun x => ⟨(bumpSub_fields o.fid x).2.1, (bumpSub_fields o.fid x).2.2.1,
        (bumpSub_fields o.fid x).1, (bumpSub_fields o.fid x).2.2.2.2.2⟩)
      hnd hfinj hr_mem hnp
    intro v
    have hlsv : liveSum (⟨removeCascade (decRc s.files o.fid) r.fid, qs1,
        s.nextId⟩ : St) v + sizeIf v r = liveSum s v := by
      rw [liveSum_eq_sum_map, liveSum_eq_sum_map]
      exact hsum v
    show usedOfQ qs1 v = ((liveSum (⟨removeCascade (decRc s.files o.fid) r.fid,
      qs1, s.nextId⟩ : St) v : Nat) : Int)
    by_cases hvu : v = u
    · subst hvu
      have hup := usedOfQ_update_ok s.quotas v (-(r.size : Int)) qs1 hu
      have husev : usedOfQ s.quotas v = (liveSum s v : Int) := hcq v
      have hsvr : sizeIf v r = r.size := by
        unfold sizeIf
        simp [hru]
      rw [hup, husev]
      rw [← hlsv, hsvr]
      push_cast
      omega
    · have hup := usedOfQ_update_ok_other s.quotas u v (-(r.size : Int)) qs1
        hvu hu
      have husev : usedOfQ s.quotas v = (liveSum s v : Int) := hcq v
      have hsvr : sizeIf v r = 0 := by
        unfold sizeIf
        simp [hru, Ne.symm hvu]
      rw [hup, husev, ← hlsv, hsvr]
      simp

theorem inv_destroy_keep (s : St) (hinv : InvSt s) (u : String) (fid0 : Nat)
    (d : Int) (qs1 : List Quota) (hd : d ≤ 0)
    (hu : update_storage_usage s.quotas u d = .ok qs1) :
    InvSt ⟨decRc s.files fid0, qs1, s.nextId⟩ := by
  have hmemD : ∀ y ∈ decRc s.files fid0, ∃ x ∈ s.files,
      (if x.fid == fid0 then { x with rc := x.rc - 1 } else x) = y := by
    intro y hy
    unfold decRc at hy
    rw [List.mem_map] at hy
    obtain ⟨x, hx, hxy⟩ := hy
    exact ⟨x, hx, hxy⟩
  have hquota := update_ok_quota_inv s.quotas u d qs1 hd hinv.quotaNd
    hinv.quotaOk hu
  refine ⟨?_, ?_, ?_, ?_, hquota.1, hquota.2.1, ?_⟩
  · intro y hy
    obtain ⟨x, hx, hxy⟩ := hmemD y hy
    show y.fid < s.nextId
    rw [← hxy, (bumpSub_fields fid0 x).1]
    exact hinv.fidLt x hx
  · unfold decRc
    exact List.Pairwise.map _ (fun a b hab => by
      rw [(bumpSub_fields fid0 a).1, (bumpSub_fields fid0 b).1]
      exact hab) hinv.fidNd
  · intro y hy
    obtain ⟨x, hx, hxy⟩ := hmemD y hy
    constructor
    · intro hyref
      rw [← hxy] at hyref
      rw [(bumpSub_fields fid0 x).2.2.2.2.1] at hyref
      obtain ⟨o2, ho2, horig2, honr2, hohash2⟩ := (hinv.refOk x hx).1 hyref
      refine ⟨(if o2.fid == fid0 then { o2 with rc := o2.rc - 1 } else o2),
        ?_, ?_, ?_, ?_⟩
      · unfold decRc
        exact List.mem_map_of_mem _ ho2
      · rw [← hxy, (bumpSub_fields fid0 x).2.2.2.2.2,
          (bumpSub_fields fid0 o2).1]
        exact horig2
      · rw [(bumpSub_fields fid0 o2).2.2.2.2.1]
        exact honr2
      · rw [(bumpSub_fields fid0 o2).2.2.2.1, ← hxy,
          (bumpSub_fields fid0 x).2.2.2.1]
        exact hohash2
    · intro hynref
      rw [← hxy] at hynref ⊢
      rw [(bumpSub_fields fid0 x).2.2.2.2.1] at hynref
      rw [(bumpSub_fields fid0 x).2.2.2.2.2]
      exact (hinv.refOk x hx).2 hynref
  · intro a ha b hb2 hna hnb hh
    obtain ⟨xa, hxa, hxar⟩ := hmemD a ha
    obtain ⟨xb, hxb, hxbr⟩ := hmemD b hb2
    rw [← hxar] at hna hh ⊢
    rw [← hxbr] at hnb hh ⊢
    rw [(bumpSub_fields fid0 xa).2.2.2.2.1] at hna
    rw [(bumpSub_fields fid0 xb).2.2.2.2.1] at hnb
    rw [(bumpSub_fields fid0 xa).2.2.2.1,
      (bumpSub_fields fid0 xb).2.2.2.1] at hh
    have hab := hinv.hashUq xa hxa xb hxb hna hnb hh
    rw [hab]
  · intro y hy
    obtain ⟨x, hx, hxy⟩ := hmemD y hy
    have hyu : y.user = x.user := by
      rw [← hxy, (bumpSub_fields fid0 x).2.1]
    rw [hyu]
    exact hquota.2.2 x.user (hinv.fileQuota x hx)

theorem good_state_destroy_del (s : St) (z w : Bool) (hg : GoodPack (s, z, w))
    (u : String) (fid : Nat) (r : FileRec) (qs1 : List Quota)
    (hfind : s.files.find? (fun x => x.fid == fid) = some r)
    (hb : (r.is_ref && r.orig.isSome) = false)
    (hrc1 : r.rc ≤ 1)
    (hu : update_storage_usage s.quotas u (-(r.size : Int)) = .ok qs1) :
    GoodPack ((⟨removeCascade s.files r.fid, qs1, s.nextId⟩ : St),
      z, w && (r.user == u)) := by
  obtain ⟨hinv, hrc, hq⟩ := hg
  have hinv : InvSt s := hinv
  have hrc : z = true → CleanRc s := hrc
  have hq : z = true → w = true → CleanQ s := hq
  have hr_mem : r ∈ s.files := List.mem_of_find?_eq_some hfind
  have hfinj := pairwise_key_inj FileRec.fid s.files hinv.fidNd
  have hnd := nodup_of_pairwise_key FileRec.fid s.files hinv.fidNd
  have hmemD : ∀ y ∈ removeCascade s.files r.fid,
      y ∈ s.files ∧ (!(y.fid == r.fid) && !(y.orig == some r.fid)) = true := by
    intro y hy
    unfold removeCascade at hy
    exact List.mem_filter.mp hy
  have hquota := update_ok_quota_inv s.quotas u (-(r.size : Int)) qs1
    (by omega) hinv.quotaNd hinv.quotaOk hu
  have hrnref : r.is_ref = false := by
    cases hre2 : r.is_ref
    · rfl
    · obtain ⟨o2, ho2, horig2, _, _⟩ := (hinv.refOk r hr_mem).1 hre2
      rw [hre2, horig2] at hb
      simp at hb
  have hrorig : r.orig = none := (hinv.refOk r hr_mem).2 hrnref
  have hnp : z = true → ∀ x ∈ s.files, ¬(x.orig = some r.fid) := by
    intro hz x hx hxo
    have hcrcr := hrc hz r hr_mem hrnref
    have hz0 : refsTo s r.fid = 0 := by omega
    unfold refsTo at hz0
    exact (List.countP_eq_zero.mp hz0 x hx) (by simp [hxo])
  refine ⟨⟨?_, ?_, ?_, ?_, hquota.1, hquota.2.1, ?_⟩, ?_, ?_⟩
  · intro y hy
    exact hinv.fidLt y (hmemD y hy).1
  · unfold removeCascade
    exact List.Pairwise.filter _ hinv.fidNd
  · intro y hy
    obtain ⟨hys, hyp⟩ := hmemD y hy
    constructor
    · intro hyref
      obtain ⟨o2, ho2, horig2, honr2, hohash2⟩ := (hinv.refOk y hys).1 hyref
      refine ⟨o2, ?_, horig2, honr2, hohash2⟩
      unfold removeCascade
      rw [List.mem_filter]
      refine ⟨ho2, ?_⟩
      rw [Bool.and_eq_true] at hyp ⊢
      constructor
      · simp only [Bool.not_eq_true']
        rw [beq_eq_false_iff_ne]
        intro hfe
        have hoe : (y.orig == some r.fid) = true := by
          rw [horig2, hfe]
          simp
        have h2 := hyp.2
        rw [hoe] at h2
        simp at h2
      · simp only [Bool.not_eq_true']
        rw [beq_eq_false_iff_ne]
        rw [(hinv.refOk o2 ho2).2 honr2]
        intro hc
        cases hc
    · intro hynref
      exact (hinv.refOk y hys).2 hynref
  · intro a ha b hb2 hna hnb hh
    exact hinv.hashUq a (hmemD a ha).1 b (hmemD b hb2).1 hna hnb hh
  · intro y hy
    exact hquota.2.2 y.user (hinv.fileQuota y (hmemD y hy).1)
  · intro hz
    have hcrc := hrc hz
    have hnp2 := hnp hz
    have hcount := refsTo_after_remove s.files r (fun x => x)
      (fun x => ⟨rfl, rfl⟩) hnd hfinj hr_mem hnp2
    intro y hy hynref
    obtain ⟨hys, hyp⟩ := hmemD y hy
    have hold := hcrc y hys hynref
    show y.rc = 1 + refsTo (⟨removeCascade s.files r.fid, qs1,
      s.nextId⟩ : St) y.fid
    have hct := hcount y.fid
    rw [List.map_id'] at hct
    have hre : refsTo (⟨removeCascade s.files r.fid, qs1,
        s.nextId⟩ : St) y.fid
        = List.countP (fun q => q.orig == some y.fid)
          (s.files.filter
            (fun a => !(a.fid == r.fid) && !(a.orig == some r.fid))) := rfl
    rw [hre]
    have hind : (r.orig == some y.fid) = false := by
      rw [hrorig]
      rfl
    rw [hind] at hct
    simp only [Bool.false_eq_true, if_false] at hct
    unfold refsTo at hold
    omega
  · intro hz hw
    rw [Bool.and_eq_true] at hw
    have hru : r.user = u := by simpa using hw.2
    have hcq := hq hz hw.1
    have hnp2 := hnp hz
    have hsum := liveSum_after_remove s.files r (fun x => x)
      (fun x => ⟨rfl, rfl, rfl, rfl⟩) hnd hfinj hr_mem hnp2
    intro v
    have hlsv : liveSum (⟨removeCascade s.files r.fid, qs1, s.nextId⟩ : St) v
        + sizeIf v r = liveSum s v := by
      rw [liveSum_eq_sum_map, liveSum_eq_sum_map]
      have hsv := hsum v
      rw [List.map_id'] at hsv
      exact hsv
    show usedOfQ qs1 v = ((liveSum (⟨removeCascade s.files r.fid, qs1,
      s.nextId⟩ : St) v : Nat) : Int)
    by_cases hvu : v = u
    · subst hvu
      have hup := usedOfQ_update_ok s.quotas v (-(r.size : Int)) qs1 hu
      have husev : usedOfQ s.quotas v = (liveSum s v : Int) := hcq v
      have hsvr : sizeIf v r = r.size := by
        unfold sizeIf
        simp [hru]
      rw [hup, husev, ← hlsv, hsvr]
      push_cast
      omega
    · have hup := usedOfQ_update_ok_other s.quotas u v (-(r.size : Int)) qs1
        hvu hu
      have husev : usedOfQ s.quotas v = (liveSum s v : Int) := hcq v
      have hsvr : sizeIf v r = 0 := by
        unfold sizeIf
        simp [hru, Ne.symm hvu]
      rw [hup, husev, ← hlsv, hsvr]
      simp

theorem good_destroy (s : St) (z w : Bool) (hg : GoodPack (s, z, w))
    (u : String) (fid : Nat) :
    GoodPack ((destroyOp s u fid).2, z && delNotZombie s fid,
      w && delOwnerOk s u fid) := by
  cases hfind : s.files.find? (fun x => x.fid == fid) with
  | none =>
      rw [destroyOp_notfound s u fid hfind]
      have hza : delNotZombie s fid = true := by
        unfold delNotZombie
        rw [hfind]
      have hwa : delOwnerOk s u fid = true := by
        unfold delOwnerOk
        rw [hfind]
      rw [hza, hwa, Bool.and_true, Bool.and_true]
      exact hg
  | some r =>
      have hza : delNotZombie s fid
          = ((r.is_ref && r.orig.isSome) || decide (r.rc ≤ 1)) := by
        unfold delNotZombie
        rw [hfind]
      have hwa : delOwnerOk s u fid = (r.user == u) := by
        unfold delOwnerOk
        rw [hfind]
      rw [hza, hwa]
      cases hb : (r.is_ref && r.orig.isSome) with
      | true =>
          rw [Bool.true_or, Bool.and_true]
          cases ho : s.files.find? (fun x => some x.fid == r.orig) with
          | none =>
              rw [destroyOp_ref_noorig s u fid r hfind hb ho]
              have hm := goodPack_mono s z w true (r.user == u) hg
              rw [Bool.and_true] at hm
              exact hm
          | some o =>
              cases hrc0 : (o.rc == 0) with
              | true =>
                  rw [destroyOp_ref_rc0 s u fid r o hfind hb ho hrc0]
                  have hm := goodPack_mono s z w true (r.user == u) hg
                  rw [Bool.and_true] at hm
                  exact hm
              | false =>
                  cases hu : update_storage_usage s.quotas u
                      (-(r.size : Int)) with
                  | ok qs1 =>
                      rw [destroyOp_ref_ok s u fid r o qs1 hfind hb ho hrc0 hu]
                      exact good_state_destroy_ref s z w
                        ⟨hg.1, hg.2.1, hg.2.2⟩ u fid r o qs1 hfind hb ho hu
                  | error e =>
                      rw [destroyOp_ref_uerr s u fid r o e hfind hb ho hrc0 hu]
                      have hm := goodPack_mono s z w true (r.user == u) hg
                      rw [Bool.and_true] at hm
                      exact hm
      | false =>
          rw [Bool.false_or]
          by_cases hgt : r.rc > 1
          · have hd1 : decide (r.rc ≤ 1) = false := decide_eq_false (by omega)
            rw [hd1, Bool.and_false]
            cases hu : update_storage_usage s.quotas u (-(r.size : Int)) with
            | ok qs1 =>
                rw [destroyOp_keep s u fid r qs1 hfind hb hgt hu]
                refine ⟨inv_destroy_keep s hg.1 u r.fid (-(r.size : Int)) qs1
                  (by omega) hu, ?_, ?_⟩
                · intro hz
                  cases hz
                · intro hz
                  cases hz
            | error e =>
                rw [destroyOp_keep_uerr s u fid r e hfind hb hgt hu]
                refine ⟨hg.1, ?_, ?_⟩
                · intro hz
                  cases hz
                · intro hz
                  cases hz
          · have hd1 : decide (r.rc ≤ 1) = true := decide_eq_true (by omega)
            rw [hd1, Bool.and_true]
            cases hu : update_storage_usage s.quotas u (-(r.size : Int)) with
            | ok qs1 =>
                rw [destroyOp_del s u fid r qs1 hfind hb hgt hu]
                exact good_state_destroy_del s z w ⟨hg.1, hg.2.1, hg.2.2⟩
                  u fid r qs1 hfind hb (by omega) hu
            | error e =>
                rw [destroyOp_del_uerr s u fid r e hfind hb hgt hu]
                have hm := goodPack_mono s z w true (r.user == u) hg
                rw [Bool.and_true] at hm
                exact hm

/-! ## Preservation along a replayed trace -/

theorem good_step (p : St × Bool × Bool) (hg : GoodPack p) (op : Op) :
    GoodPack (stepOp p op) := by
  obtain ⟨s, z, w⟩ := p
  cases op with
  | up u fn ft h c =>
      show GoodPack ((uploadOp s u fn ft h c).2, z, w)
      exact good_upload s z w hg u fn ft h c
  | del u fid =>
      show GoodPack ((destroyOp s u fid).2, z && delNotZombie s fid,
        w && delOwnerOk s u fid)
      exact good_destroy s z w hg u fid

theorem good_empty : GoodPack (St.empty, true, true) := by
  refine ⟨⟨?_, ?_, ?_, ?_, ?_, ?_, ?_⟩, ?_, ?_⟩
  · intro r hr
    cases hr
  · exact List.Pairwise.nil
  · intro r hr
    cases hr
  · intro a ha
    cases ha
  · exact List.Pairwise.nil
  · intro q hq
    cases hq
  · intro r hr
    cases hr
  · intro _ o ho
    cases ho
  · intro _ _ v
    rfl

theorem good_foldl (ops : List Op) (p : St × Bool × Bool) (hg : GoodPack p) :
    GoodPack (ops.foldl stepOp p) := by
  induction ops generalizing p with
  | nil => exact hg
  | cons op rest ih => exact ih (stepOp p op) (good_step p hg op)

theorem good_runOps (ops : List Op) : GoodPack (runOps ops) :=
  good_foldl ops (St.empty, true, true) good_empty

/-! ## Single-owner traces: every row belongs to the actor -/

theorem upload_user_mem (s : St) (u fn ft h : String) (c : List Nat) :
    ∀ y ∈ (uploadOp s u fn ft h c).2.files,
      y.user = u ∨ ∃ x ∈ s.files, y.user = x.user := by
  cases hv : validate_file c.length ft with
  | some rv =>
      rw [uploadOp_eq_vreject s u fn ft h c rv hv]
      intro y hy
      exact Or.inr ⟨y, hy, rfl⟩
  | none =>
      cases hc : (check_storage_quota s.quotas u c.length).1 with
      | false =>
          rw [uploadOp_eq_qreject s u fn ft h c hv hc]
          intro y hy
          exact Or.inr ⟨y, hy, rfl⟩
      | true =>
          cases hex : s.files.find? (fun r => r.file_hash == h && !r.is_ref) with
          | some e =>
              rw [uploadOp_eq_dup s u fn ft h c e hv hc hex]
              intro y hy
              rcases List.mem_cons.mp hy with hy1 | hy2
              · rw [hy1]
                exact Or.inl rfl
              · rw [List.mem_map] at hy2
                obtain ⟨x, hx, hxy⟩ := hy2
                refine Or.inr ⟨x, hx, ?_⟩
                rw [← hxy, (bumpAdd_fields e.fid x).2.1]
          | none =>
              rw [uploadOp_eq_new s u fn ft h c hv hc hex]
              intro y hy
              rcases List.mem_cons.mp hy with hy1 | hy2
              · rw [hy1]
                exact Or.inl rfl
              · exact Or.inr ⟨y, hy2, rfl⟩

theorem destroy_user_mem (s : St) (u : String) (fid : Nat) :
    ∀ y ∈ (destroyOp s u fid).2.files, ∃ x ∈ s.files, y.user = x.user := by
  cases hfind : s.files.find? (fun x => x.fid == fid) with
  | none =>
      rw [destroyOp_notfound s u fid hfind]
      intro y hy
      exact ⟨y, hy, rfl⟩
  | some r =>
      cases hb : (r.is_ref && r.orig.isSome) with
      | true =>
          cases ho : s.files.find? (fun x => some x.fid == r.orig) with
          | none =>
              rw [destroyOp_ref_noorig s u fid r hfind hb ho]
              intro y hy
              exact ⟨y, hy, rfl⟩
          | some o =>
              cases hrc0 : (o.rc == 0) with
              | true =>
                  rw [destroyOp_ref_rc0 s u fid r o hfind hb ho hrc0]
                  intro y hy
                  exact ⟨y, hy, rfl⟩
              | false =>
                  cases hu : update_storage_usage s.quotas u
                      (-(r.size : Int)) with
                  | ok qs1 =>
                      rw [destroyOp_ref_ok s u fid r o qs1 hfind hb ho hrc0 hu]
                      intro y hy
                      have hy2 : y ∈ decRc s.files o.fid := by
                        unfold removeCascade at hy
                        exact (List.mem_filter.mp hy).1
                      unfold decRc at hy2
                      rw [List.mem_map] at hy2
                      obtain ⟨x, hx, hxy⟩ := hy2
                      refine ⟨x, hx, ?_⟩
                      rw [← hxy, (bumpSub_fields o.fid x).2.1]
                  | error e =>
                      rw [destroyOp_ref_uerr s u fid r o e hfind hb ho hrc0 hu]
                      intro y hy
                      exact ⟨y, hy, rfl⟩
      | false =>
          by_cases hgt : r.rc > 1
          · cases hu : update_storage_usage s.quotas u (-(r.size : Int)) with
            | ok qs1 =>
                rw [destroyOp_keep s u fid r qs1 hfind hb hgt hu]
                intro y hy
                have hy2 : y ∈ decRc s.files r.fid := hy
                unfold decRc at hy2
                rw [List.mem_map] at hy2
                obtain ⟨x, hx, hxy⟩ := hy2
                refine ⟨x, hx, ?_⟩
                rw [← hxy, (bumpSub_fields r.fid x).2.1]
            | error e =>
                rw [destroyOp_keep_uerr s u fid r e hfind hb hgt hu]
                intro y hy
                exact ⟨y, hy, rfl⟩
          · cases hu : update_storage_usage s.quotas u (-(r.size : Int)) with
            | ok qs1 =>
                rw [destroyOp_del s u fid r qs1 hfind hb hgt hu]
                intro y hy
                have hy2 : y ∈ s.files := by
                  unfold removeCascade at hy
                  exact (List.mem_filter.mp hy).1
                exact ⟨y, hy2, rfl⟩
            | error e =>
                rw [destroyOp_del_uerr s u fid r e hfind hb hgt hu]
                intro y hy
                exact ⟨y, hy, rfl⟩

theorem step_owned (s : St) (z w : Bool) (u : String)
    (hown : ∀ r ∈ s.files, r.user = u) (op : Op) (hop : op.actor = u) :
    (∀ r ∈ (stepOp (s, z, w) op).1.files, r.user = u) ∧
    (stepOp (s, z, w) op).2.2 = w := by
  cases op with
  | up uu fn ft h c =>
      have huu : uu = u := hop
      subst huu
      refine ⟨?_, rfl⟩
      intro r hr
      rcases upload_user_mem s uu fn ft h c r hr with h1 | ⟨x, hx, h2⟩
      · exact h1
      · rw [h2]
        exact hown x hx
  | del uu fid =>
      have huu : uu = u := hop
      subst huu
      constructor
      · intro r hr
        obtain ⟨x, hx, h2⟩ := destroy_user_mem s uu fid r hr
        rw [h2]
        exact hown x hx
      · show (w && delOwnerOk s uu fid) = w
        have hok : delOwnerOk s uu fid = true := by
          unfold delOwnerOk
          cases hf : s.files.find? (fun r => r.fid == fid) with
          | none => rfl
          | some r =>
              have := hown r (List.mem_of_find?_eq_some hf)
              simp [this]
        rw [hok, Bool.and_true]

theorem foldl_owned (ops : List Op) (u : String) (s : St) (z w : Bool)
    (hs : ∀ r ∈ s.files, r.user = u)
    (hown : ∀ op ∈ ops, op.actor = u) :
    (∀ r ∈ (ops.foldl stepOp (s, z, w)).1.files, r.user = u) ∧
    (ops.foldl stepOp (s, z, w)).2.2 = w := by
  induction ops generalizing s z w with
  | nil => exact ⟨hs, rfl⟩
  | cons op rest ih =>
      have hstep := step_owned s z w u hs op (hown op (by simp))
      have hsurj : stepOp (s, z, w) op = ((stepOp (s, z, w) op).1,
          (stepOp (s, z, w) op).2.1, (stepOp (s, z, w) op).2.2) := rfl
      rw [List.foldl_cons, hsurj]
      have ihr := ih ((stepOp (s, z, w) op).1) ((stepOp (s, z, w) op).2.1)
        ((stepOp (s, z, w) op).2.2) hstep.1
        (fun o ho => hown o (by simp [ho]))
      refine ⟨ihr.1, ?_⟩
      rw [ihr.2, hstep.2]

theorem runOps_owned (ops : List Op) (u : String)
    (hown : ∀ op ∈ ops, op.actor = u) :
    (∀ r ∈ (runOps ops).1.files, r.user = u) ∧ (runOps ops).2.2 = true := by
  unfold runOps
  exact foldl_owned ops u St.empty true true (fun r hr => by cases hr) hown

/-! ## Counting rows by content hash -/

theorem countP_or_disjoint {α : Type} (l : List α) (p q : α → Bool)
    (hd : ∀ x ∈ l, ¬(p x = true ∧ q x = true)) :
    l.countP (fun x => p x || q x) = l.countP p + l.countP q := by
  induction l with
  | nil => rfl
  | cons a t ih =>
      rw [List.countP_cons, List.countP_cons, List.countP_cons]
      have hdt : ∀ x ∈ t, ¬(p x = true ∧ q x = true) :=
        fun x hx => hd x (by simp [hx])
      rw [ih hdt]
      cases hp : p a with
      | true =>
          have hq2 : q a = false := by
            cases hqa : q a
            · rfl
            · exact absurd ⟨hp, hqa⟩ (hd a (by simp))
          simp [hp, hq2]
          omega
      | false =>
          cases hqa : q a with
          | true =>
              simp [hp, hqa]
              omega
          | false =>
              simp [hp, hqa]

theorem hashCount_eq (s : St) (hinv : InvSt s) (o : FileRec)
    (ho : o ∈ s.files) (honr : o.is_ref = false) :
    hashCount s o.file_hash = 1 + refsTo s o.fid := by
  have hfinj := pairwise_key_inj FileRec.fid s.files hinv.fidNd
  have hnd := nodup_of_pairwise_key FileRec.fid s.files hinv.fidNd
  have hoorig : o.orig = none := (hinv.refOk o ho).2 honr
  unfold hashCount refsTo
  have hcong : ∀ x ∈ s.files, (x.file_hash == o.file_hash)
      = ((x == o) || (x.orig == some o.fid)) := by
    intro x hx
    by_cases hxh : x.file_hash = o.file_hash
    · have hlhs : (x.file_hash == o.file_hash) = true := by simp [hxh]
      cases hxr : x.is_ref with
      | false =>
          have hxo : x = o := hinv.hashUq x hx o ho hxr honr hxh
          rw [hlhs, hxo]
          simp
      | true =>
          obtain ⟨o2, ho2, horig2, honr2, hohash2⟩ := (hinv.refOk x hx).1 hxr
          have ho2o : o2 = o := hinv.hashUq o2 ho2 o ho honr2 honr
            (by rw [hohash2, hxh])
          rw [ho2o] at horig2
          have hrhs : (x.orig == some o.fid) = true := by simp [horig2]
          rw [hlhs, hrhs, Bool.or_true]
    · have hlhs : (x.file_hash == o.file_hash) = false := by
        rw [beq_eq_false_iff_ne]
        exact hxh
      have hne : (x == o) = false := by
        rw [beq_eq_false_iff_ne]
        intro he
        rw [he] at hxh
        exact hxh rfl
      have hno : (x.orig == some o.fid) = false := by
        rw [beq_eq_false_iff_ne]
        intro he
        cases hxr : x.is_ref with
        | false =>
            rw [(hinv.refOk x hx).2 hxr] at he
            cases he
        | true =>
            obtain ⟨o2, ho2, horig2, honr2, hohash2⟩ := (hinv.refOk x hx).1 hxr
            rw [he] at horig2
            have hfe : o.fid = o2.fid := by
              injection horig2
            have ho2o : o2 = o := hfinj o2 ho2 o ho hfe.symm
            rw [ho2o] at hohash2
            exact hxh hohash2.symm
      rw [hlhs, hne, hno]
      rfl
  rw [countP_congr_mem s.files _ _ hcong]
  have hdisj : ∀ x ∈ s.files,
      ¬(((x == o) = true) ∧ ((x.orig == some o.fid) = true)) := by
    intro x hx hpq
    have hxo : x = o := by simpa using hpq.1
    have hor := hpq.2
    rw [hxo, hoorig] at hor
    simp at hor
  have hsplit : s.files.countP (fun x => (x == o) || (x.orig == some o.fid))
      = s.files.countP (fun x => x == o)
        + s.files.countP (fun x => x.orig == some o.fid) :=
    countP_or_disjoint s.files _ _ hdisj
  rw [hsplit]
  have hcnt : s.files.countP (fun x => x == o) = s.files.count o := rfl
  rw [hcnt, List.count_eq_one_of_mem hnd ho]

/-! ## Claim C3 — quota-ledger invariant -/

/-- C3 (amended): for every trace of uploads and deletes issued by a single
owner, that owner's stored usage is never negative and never exceeds
`USER_STORAGE_QUOTA`; and as long as no delete in the trace has hit an
original row that other live rows still referenced (the `z` replay flag),
the usage equals the sum of sizes of the owner's live rows.  The spec's
unconditional equality is refuted by `C3_quota_ledger_counterexample`. -/
theorem C3_quota_ledger (ops : List Op) (u : String)
    (hown : ∀ op ∈ ops, op.actor = u) :
    0 ≤ usedOf (runOps ops).1 u ∧
    usedOf (runOps ops).1 u ≤ (USER_STORAGE_QUOTA : Int) ∧
    ((runOps ops).2.1 = true →
      usedOf (runOps ops).1 u = (liveSum (runOps ops).1 u : Int)) := by
  have hg := good_runOps ops
  have hinv : InvSt (runOps ops).1 := hg.1
  have how := runOps_owned ops u hown
  refine ⟨?_, ?_, ?_⟩
  · unfold usedOf usedOfQ
    cases hf : (runOps ops).1.quotas.find? (fun q => q.user == u) with
    | none => exact le_refl 0
    | some q => exact (hinv.quotaOk q (List.mem_of_find?_eq_some hf)).1
  · unfold usedOf usedOfQ
    cases hf : (runOps ops).1.quotas.find? (fun q => q.user == u) with
    | none =>
        show (0 : Int) ≤ (USER_STORAGE_QUOTA : Int)
        exact Int.natCast_nonneg _
    | some q =>
        have hqk := hinv.quotaOk q (List.mem_of_find?_eq_some hf)
        show q.used ≤ (USER_STORAGE_QUOTA : Int)
        rw [← hqk.2.2]
        exact hqk.2.1
  · intro hz
    exact hg.2.2 hz how.2 u

/-- Counterexample to the literal C3: after `c3Trace` — two deduplicated
uploads by `alice` followed by a delete of the original row that the second
record still references — `alice`'s stored usage is 3 bytes while her live
rows total 6 bytes, so the claimed equality fails even for a single-owner
trace. -/
theorem C3_quota_ledger_counterexample :
    (∀ op ∈ c3Trace, op.actor = "alice") ∧
    ¬(usedOf (runOps c3Trace).1 "alice"
        = (liveSum (runOps c3Trace).1 "alice" : Int)) := by
  decide

/-- Instantiation of `C3_quota_ledger` on the clean single-owner trace
`c3CleanTrace` (one upload, one delete). -/
theorem C3_quota_ledger_witness :
    0 ≤ usedOf (runOps c3CleanTrace).1 "alice" ∧
    usedOf (runOps c3CleanTrace).1 "alice" ≤ (USER_STORAGE_QUOTA : Int) ∧
    ((runOps c3CleanTrace).2.1 = true →
      usedOf (runOps c3CleanTrace).1 "alice"
        = (liveSum (runOps c3CleanTrace).1 "alice" : Int)) :=
  C3_quota_ledger c3CleanTrace "alice" (by decide)

/-! ## Claim C4 — dedup identity invariant -/

/-- C4 (amended): after any trace of uploads and deletes, at most one
non-reference row exists per content hash, and every row's content is
backed by a non-reference row with the same hash.  As long as no delete in
the trace has hit an original row that other live rows still referenced
(the `z` replay flag), the reference count of a non-reference row equals
the number of live rows across all owners carrying its hash.  The spec's
unconditional count is refuted by `C4_dedup_identity_counterexample`. -/
theorem C4_dedup_identity (ops : List Op) :
    (∀ a ∈ (runOps ops).1.files, ∀ b ∈ (runOps ops).1.files,
      a.is_ref = false → b.is_ref = false → a.file_hash = b.file_hash →
        a = b) ∧
    (∀ r ∈ (runOps ops).1.files, ∃ o ∈ (runOps ops).1.files,
      o.is_ref = false ∧ o.file_hash = r.file_hash) ∧
    ((runOps ops).2.1 = true → ∀ o ∈ (runOps ops).1.files,
      o.is_ref = false → o.rc = hashCount (runOps ops).1 o.file_hash) := by
  have hg := good_runOps ops
  have hinv : InvSt (runOps ops).1 := hg.1
  refine ⟨hinv.hashUq, ?_, ?_⟩
  · intro r hr
    cases hxr : r.is_ref with
    | false => exact ⟨r, hr, hxr, rfl⟩
    | true =>
        obtain ⟨o, ho, _, honr, hohash⟩ := (hinv.refOk r hr).1 hxr
        exact ⟨o, ho, honr, hohash⟩
  · intro hz o ho honr
    have hcrc := hg.2.1 hz o ho honr
    rw [hashCount_eq (runOps ops).1 hinv o ho honr]
    exact hcrc

/-- Counterexample to the literal C4: after `c4Trace` — `alice` and `bob`
upload the same bytes, then `alice` deletes the original row while `bob`'s
record still references it — the surviving original row has
`reference_count` 1 but two live rows carry its hash. -/
theorem C4_dedup_identity_counterexample :
    ∃ o ∈ (runOps c4Trace).1.files, o.is_ref = false ∧
      ¬(o.rc = hashCount (runOps c4Trace).1 o.file_hash) := by
  decide

/-- Instantiation of `C4_dedup_identity` on `c4WitTrace`: the original row
of the two deduplicated uploads has reference count 2, matching the two
live rows with hash `h1`. -/
theorem C4_dedup_identity_witness :
    (2 : Nat) = hashCount (runOps c4WitTrace).1 "h1" :=
  (C4_dedup_identity c4WitTrace).2.2 (by decide)
    ⟨0, "alice", "a.txt", "text/plain", 3, "h1", false, none, 2,
      some [1, 2, 3]⟩ (by decide) rfl

/-! ## Claim C6 — upload validation raises-iff -/

/-- C6: an upload is rejected by field validation if and only if the file is
empty (0 bytes), or its size strictly exceeds `MAX_FILE_SIZE` (10 MB), or
its declared MIME type is in `BLOCKED_MIME_TYPES`; equivalently, validation
passes iff none of the three conditions holds — in particular a non-empty
file of exactly `MAX_FILE_SIZE` bytes with an unblocked type passes. -/
theorem C6_validate_file_iff (size : Nat) (ctype : String) :
    validate_file size ctype = none ↔
      ¬(size = 0 ∨ MAX_FILE_SIZE < size ∨ ctype ∈ BLOCKED_MIME_TYPES) := by
  unfold validate_file validate_file_not_empty validate_file_size
    validate_file_type
  by_cases h0 : size = 0
  · simp [h0]
  · by_cases h1 : MAX_FILE_SIZE < size
    · simp [h0, h1]
    · by_cases h2 : ctype ∈ BLOCKED_MIME_TYPES
      · simp [h0, h1, h2]
      · simp [h0, h1, h2]

/-- C6 witness: the boundary case from the claim — a file of exactly the
maximum size, non-empty, with an unblocked type, passes validation. -/
theorem C6_validate_file_iff_witness :
    validate_file MAX_FILE_SIZE "text/plain" = none :=
  (C6_validate_file_iff MAX_FILE_SIZE "text/plain").mpr (by decide)

/-! ## Claim C8 — quota release clamping -/

/-- C8: releasing `d ≥ 0` bytes for a user (`update_storage_usage` with a
negative delta, as `destroy` calls it) never raises when the current usage
is within `MAX_SAFE_STORAGE`; it stores `used - d` when that difference is
non-negative and exactly `0` when the difference would be negative, so a
negative value is never stored. -/
theorem C8_release_clamp (qs : List Quota) (u : String) (d : Int)
    (hd : 0 ≤ d) (hmax : usedOfQ qs u ≤ MAX_SAFE_STORAGE) :
    ∃ qs2, update_storage_usage qs u (-d) = .ok qs2 ∧
      (0 ≤ usedOfQ qs u - d → usedOfQ qs2 u = usedOfQ qs u - d) ∧
      (usedOfQ qs u - d < 0 → usedOfQ qs2 u = 0) ∧
      0 ≤ usedOfQ qs2 u := by
  have hused := getOrCreate_used_self qs u
  have hok : ∃ qs2, update_storage_usage qs u (-d) = .ok qs2 := by
    unfold update_storage_usage
    by_cases h0 : (getOrCreateQuota qs u).1.used + -d < 0
    · exact ⟨setUsed (getOrCreateQuota qs u).2 u 0, by simp [h0]⟩
    · have hm : ¬((getOrCreateQuota qs u).1.used + -d > MAX_SAFE_STORAGE) := by
        rw [hused]; omega
      exact ⟨setUsed (getOrCreateQuota qs u).2 u
        ((getOrCreateQuota qs u).1.used + -d), by simp [h0, hm]⟩
  obtain ⟨qs2, hqs2⟩ := hok
  refine ⟨qs2, hqs2, ?_, ?_, ?_⟩ <;>
    have hval := usedOfQ_update_ok qs u (-d) qs2 hqs2 <;> intros <;> omega

/-- C8 witness: with a single row at 5 bytes used, releasing 3 stores 2;
releasing 9 from a 5-byte row is exercised through a second application in
the conjunction, clamping to 0. -/
theorem C8_release_clamp_witness :
    (∃ qs2, update_storage_usage [⟨"u1", 5, 100⟩] "u1" (-3) = .ok qs2 ∧
      (0 ≤ usedOfQ [⟨"u1", 5, 100⟩] "u1" - 3 →
        usedOfQ qs2 "u1" = usedOfQ [⟨"u1", 5, 100⟩] "u1" - 3) ∧
      (usedOfQ [⟨"u1", 5, 100⟩] "u1" - 3 < 0 → usedOfQ qs2 "u1" = 0) ∧
      0 ≤ usedOfQ qs2 "u1") ∧
    (∃ qs2, update_storage_usage [⟨"u1", 5, 100⟩] "u1" (-9) = .ok qs2 ∧
      (0 ≤ usedOfQ [⟨"u1", 5, 100⟩] "u1" - 9 →
        usedOfQ qs2 "u1" = usedOfQ [⟨"u1", 5, 100⟩] "u1" - 9) ∧
      (usedOfQ [⟨"u1", 5, 100⟩] "u1" - 9 < 0 → usedOfQ qs2 "u1" = 0) ∧
      0 ≤ usedOfQ qs2 "u1") :=
  ⟨C8_release_clamp [⟨"u1", 5, 100⟩] "u1" 3 (by decide) (by decide),
   C8_release_clamp [⟨"u1", 5, 100⟩] "u1" 9 (by decide) (by decide)⟩

/-! ## Claim C7 — content-hash contract -/

set_option maxRecDepth 10000 in
/-- Validation of the SHA-256 model against the doctest of
`calculate_file_hash`: hashing the seven bytes of `b"content"` yields the
digest quoted in the docstring. -/
theorem calculate_file_hash_docstring_vector :
    (calculate_file_hash ⟨[99, 111, 110, 116, 101, 110, 116], 0⟩).1
      = "ed7002b439e9ac845f22357d822bac1444730fbdb6016d3ec9432297b9ec9f73" := by
  decide

theorem toBytesBE_length (k n : Nat) : (toBytesBE k n).length = k := by
  induction k generalizing n with
  | zero => rfl
  | succ k ih => simp [toBytesBE, ih]

theorem toBytesBE_mem_lt (k n : Nat) : ∀ b ∈ toBytesBE k n, b < 256 := by
  induction k generalizing n with
  | zero => intro b hb; simp [toBytesBE] at hb
  | succ k ih =>
    intro b hb
    simp only [toBytesBE, List.mem_append, List.mem_singleton] at hb
    rcases hb with hb | hb
    · exact ih _ b hb
    · omega

theorem sha256_length (msg : List Nat) : (sha256 msg).length = 32 := by
  unfold sha256
  simp [List.length_flatten, toBytesBE_length]

theorem sha256_mem_lt (msg : List Nat) : ∀ b ∈ sha256 msg, b < 256 := by
  intro b hb
  unfold sha256 at hb
  simp only [List.mem_flatten, List.mem_map] at hb
  obtain ⟨c, ⟨w, _, hw⟩, hbc⟩ := hb
  rw [← hw] at hbc
  exact toBytesBE_mem_lt 4 w b hbc

theorem hexChar_mem (d : Nat) (hd : d < 16) : hexChar d ∈ hexDigits := by
  interval_cases d <;> decide

theorem hexChars_mem (bs : List Nat) (hbs : ∀ b ∈ bs, b < 256) :
    ∀ c ∈ hexChars bs, c ∈ hexDigits := by
  intro c hc
  unfold hexChars at hc
  simp only [List.mem_flatten, List.mem_map] at hc
  obtain ⟨l, ⟨b, hb, hl⟩, hcl⟩ := hc
  rw [← hl] at hcl
  have hblt := hbs b hb
  simp only [List.mem_cons, List.mem_singleton, List.not_mem_nil] at hcl
  rcases hcl with hcl | hcl | hcl
  · rw [hcl]; exact hexChar_mem _ (by omega)
  · rw [hcl]; exact hexChar_mem _ (by omega)
  · cases hcl

theorem hexChars_length (bs : List Nat) : (hexChars bs).length = 2 * bs.length := by
  induction bs with
  | nil => rfl
  | cons b bs ih =>
    unfold hexChars at ih ⊢
    simp only [List.map_cons, List.flatten_cons, List.length_append,
      List.length_cons, List.length_nil] at ih ⊢
    omega

theorem sha256hex_length (msg : List Nat) : (sha256hex msg).length = 64 := by
  show (hexChars (sha256 msg)).length = 64
  rw [hexChars_length, sha256_length]

theorem sha256hex_mem (msg : List Nat) :
    ∀ c ∈ (sha256hex msg).toList, c ∈ hexDigits := by
  intro c hc
  exact hexChars_mem (sha256 msg) (sha256_mem_lt msg) c hc

theorem foldl_append_eq (chunks : List (List Nat)) (acc : List Nat) :
    chunks.foldl (fun a c => a ++ c) acc = acc ++ chunks.flatten := by
  induction chunks generalizing acc with
  | nil => simp
  | cons c cs ih => simp [List.foldl_cons, ih]

theorem chunksOfF_flatten {α : Type} (n : Nat) (hn : 0 < n) :
    ∀ (fuel : Nat) (l : List α), l.length ≤ fuel →
      (chunksOfF n fuel l).flatten = l := by
  intro fuel
  induction fuel with
  | zero =>
    intro l hl
    match l with
    | [] => simp [chunksOfF]
    | x :: xs => simp at hl
  | succ m ih =>
    intro l hl
    match l with
    | [] => simp [chunksOfF]
    | x :: xs =>
      rw [chunksOfF]
      rw [if_neg (by omega)]
      simp only [List.flatten_cons]
      rw [ih ((x :: xs).drop n) (by simp [List.length_drop] at hl ⊢; omega)]
      exact List.take_append_drop n (x :: xs)

theorem chunksOf_flatten {α : Type} (n : Nat) (hn : 0 < n) (l : List α) :
    (chunksOf n l).flatten = l :=
  chunksOfF_flatten n hn l.length l le_rfl

/-- C7: `calculate_file_hash` returns the SHA-256 hex digest of the full
content: the digest is a 64-character string over the lowercase hex
alphabet; the hasher loop yields this same digest for EVERY chunking whose
concatenation is the content (so two streams with identical bytes hash
identically regardless of chunking); and the stream comes back positioned
at the start. -/
theorem C7_hash_contract (f : ByteStream) (chunks : List (List Nat))
    (hchunks : chunks.flatten = f.data) :
    (calculate_file_hash f).1 = sha256hex f.data ∧
    hashChunks chunks = sha256hex f.data ∧
    (calculate_file_hash f).2 = ⟨f.data, 0⟩ ∧
    (calculate_file_hash f).1.length = 64 ∧
    ∀ c ∈ (calculate_file_hash f).1.toList, c ∈ hexDigits := by
  have hmain : ∀ cs : List (List Nat), cs.flatten = f.data →
      hashChunks cs = sha256hex f.data := by
    intro cs hcs
    unfold hashChunks
    rw [foldl_append_eq, List.nil_append, hcs]
  have h1 : (calculate_file_hash f).1 = sha256hex f.data :=
    hmain _ (chunksOf_flatten 8192 (by omega) f.data)
  refine ⟨h1, hmain chunks hchunks, rfl, ?_, ?_⟩
  · rw [h1]
    exact sha256hex_length f.data
  · rw [h1]
    exact sha256hex_mem f.data

/-- C7 witness: a 3-byte stream read from position 2 in two chunks. -/
theorem C7_hash_contract_witness :
    (calculate_file_hash ⟨[1, 2, 3], 2⟩).1 = sha256hex [1, 2, 3] ∧
    hashChunks [[1], [2, 3]] = sha256hex [1, 2, 3] ∧
    (calculate_file_hash ⟨[1, 2, 3], 2⟩).2 = ⟨[1, 2, 3], 0⟩ ∧
    (calculate_file_hash ⟨[1, 2, 3], 2⟩).1.length = 64 ∧
    ∀ c ∈ (calculate_file_hash ⟨[1, 2, 3], 2⟩).1.toList, c ∈ hexDigits :=
  C7_hash_contract ⟨[1, 2, 3], 2⟩ [[1], [2, 3]] (by decide)

/-! ## Claim C5 — rejection atomicity -/

theorem size_le_of_validate_none (sz : Nat) (ct : String)
    (hv : validate_file sz ct = none) : sz ≤ MAX_FILE_SIZE := by
  unfold validate_file validate_file_not_empty validate_file_size at hv
  by_cases h0 : sz = 0
  · omega
  · simp only [h0, if_false] at hv
    by_cases h1 : sz > MAX_FILE_SIZE
    · simp [h1] at hv
    · omega

theorem check_storage_quota_reject (qs : List Quota) (u : String) (sz : Nat)
    (hsz : sz ≤ MAX_FILE_SIZE)
    (hf : (check_storage_quota qs u sz).1 = false) :
    (check_storage_quota qs u sz).2 = qs := by
  unfold check_storage_quota getOrCreateQuota at hf ⊢
  cases hfq : qs.find? (fun q => q.user == u) with
  | some q => simp [hfq]
  | none =>
    simp only [hfq, hasSpaceFor] at hf
    exfalso
    have : ¬((0 : Int) + (sz : Int) ≤ ((USER_STORAGE_QUOTA : Nat) : Int)) := by
      simpa using hf
    have hq : USER_STORAGE_QUOTA = MAX_FILE_SIZE := by decide
    omega

/-- C5: an upload rejected for any reason (empty file, oversized file,
blocked MIME type, quota exceeded) leaves the whole store (quota table and
`File` table) unchanged.  The lazily created quota row of
`check_storage_quota` never survives a rejection: a fresh row has
`used = 0` and `limit = USER_STORAGE_QUOTA = MAX_FILE_SIZE`, and a file
that passed size validation always fits in a fresh row, so a quota
rejection implies the row already existed. -/
theorem C5_rejection_atomic (s : St) (u fname ftype h : String)
    (content : List Nat) (r : Rejection)
    (hrej : (uploadOp s u fname ftype h content).1 = .error r) :
    (uploadOp s u fname ftype h content).2 = s := by
  unfold uploadOp at hrej ⊢
  cases hv : validate_file content.length ftype with
  | some rv => simp [hv]
  | none =>
    have hsz := size_le_of_validate_none _ _ hv
    simp only [hv] at hrej ⊢
    by_cases hc : (check_storage_quota s.quotas u content.length).1 = false
    · have h2 := check_storage_quota_reject s.quotas u content.length hsz hc
      simp [hc, h2]
    · have hc1 : (check_storage_quota s.quotas u content.length).1 = true := by
        cases hb : (check_storage_quota s.quotas u content.length).1
        · exact absurd hb hc
        · rfl
      exfalso
      have hsnd : (check_storage_quota s.quotas u content.length).2
          = (getOrCreateQuota s.quotas u).2 := rfl
      have hfst : (check_storage_quota s.quotas u content.length).1
          = hasSpaceFor (getOrCreateQuota s.quotas u).1 content.length := rfl
      simp only [hc1, Bool.not_true, if_false, hsnd] at hrej
      rw [getOrCreate_idem] at hrej
      rw [hfst] at hc1
      simp only [hc1, Bool.not_true, if_false] at hrej
      cases hex : s.files.find? (fun x => x.file_hash == h && !x.is_ref) with
      | some e => simp [hex] at hrej
      | none => simp [hex] at hrej

/-- C5 witness: a blocked-type upload is rejected and leaves a non-trivial
store untouched. -/
theorem C5_rejection_atomic_witness :
    (uploadOp ⟨[], [⟨"u1", 5, 100⟩], 0⟩ "u1" "x.exe"
        "application/x-msdownload" "hx" [1]).2 = ⟨[], [⟨"u1", 5, 100⟩], 0⟩ :=
  C5_rejection_atomic ⟨[], [⟨"u1", 5, 100⟩], 0⟩ "u1" "x.exe"
    "application/x-msdownload" "hx" [1] .blockedType (by decide)

/-! ## Claim C2 — delete removes the record -/

/-- C2 counterexample: deleting an original whose content is still
referenced by another live record succeeds (HTTP 204) but does NOT remove
the record with that id — `destroy` only decrements `reference_count` when
`reference_count > 1`, keeping the row alive. -/
theorem C2_delete_removes_record_counterexample :
    (destroyOp c2State "u1" 0).1 = .ok () ∧
      ((destroyOp c2State "u1" 0).2.files.find? (fun x => x.fid == 0)).isSome
        = true := by decide

/-- C2 (amended): for every successful `delete(fileId, requester)`: when the
target is a reference, or an original with `reference_count ≤ 1`, the record
is removed; when it is an original with `reference_count > 1` the record
survives with its count decremented by one; in every case the requester's
quota usage decreases by the record's size (clamped at 0). -/
theorem C2_delete_effects (s : St) (u : String) (fid : Nat) (r : FileRec)
    (hfind : s.files.find? (fun x => x.fid == fid) = some r)
    (hok : (destroyOp s u fid).1 = .ok ()) :
    (((r.is_ref && r.orig.isSome) = true ∨ r.rc ≤ 1) →
      ∀ x ∈ (destroyOp s u fid).2.files, (x.fid == fid) = false) ∧
    ((r.is_ref && r.orig.isSome) = false → 1 < r.rc →
      { r with rc := r.rc - 1 } ∈ (destroyOp s u fid).2.files) ∧
    usedOf (destroyOp s u fid).2 u = max 0 (usedOf s u - (r.size : Int)) := by
  have hrfid : r.fid = fid := by simpa using List.find?_some hfind
  cases hb : (r.is_ref && r.orig.isSome) with
  | true =>
    cases ho : s.files.find? (fun x => some x.fid == r.orig) with
    | none =>
      rw [destroyOp_ref_noorig s u fid r hfind hb ho] at hok
      cases hok
    | some o =>
      cases hrc : (o.rc == 0) with
      | true =>
        rw [destroyOp_ref_rc0 s u fid r o hfind hb ho hrc] at hok
        cases hok
      | false =>
        cases hu : update_storage_usage s.quotas u (-(r.size : Int)) with
        | error e =>
          rw [destroyOp_ref_uerr s u fid r o e hfind hb ho hrc hu] at hok
          cases hok
        | ok qs1 =>
          rw [destroyOp_ref_ok s u fid r o qs1 hfind hb ho hrc hu]
          dsimp only
          refine ⟨?_, ?_, ?_⟩
          · intro _ x hx
            unfold removeCascade at hx
            have hpred := (List.mem_filter.mp hx).2
            rw [Bool.and_eq_true] at hpred
            have h1 := hpred.1
            rw [← hrfid]
            simpa using h1
          · intro hcontra
            simp [hb] at hcontra
          · show usedOfQ qs1 u = max 0 (usedOfQ s.quotas u - (r.size : Int))
            have := usedOfQ_update_ok s.quotas u (-(r.size : Int)) qs1 hu
            omega
  | false =>
    by_cases hrc : r.rc > 1
    · cases hu : update_storage_usage s.quotas u (-(r.size : Int)) with
      | error e =>
        rw [destroyOp_keep_uerr s u fid r e hfind hb hrc hu] at hok
        cases hok
      | ok qs1 =>
        rw [destroyOp_keep s u fid r qs1 hfind hb hrc hu]
        dsimp only
        refine ⟨?_, ?_, ?_⟩
        · intro hyp
          exfalso
          rcases hyp with hyp | hyp
          · cases hyp
          · omega
        · intro _ _
          show { r with rc := r.rc - 1 } ∈ decRc s.files r.fid
          unfold decRc
          have hr : r ∈ s.files := List.mem_of_find?_eq_some hfind
          have hmap := List.mem_map_of_mem
            (fun x => if (x.fid == r.fid) = true then { x with rc := x.rc - 1 }
              else x) hr
          simpa using hmap
        · show usedOfQ qs1 u = max 0 (usedOfQ s.quotas u - (r.size : Int))
          have := usedOfQ_update_ok s.quotas u (-(r.size : Int)) qs1 hu
          omega
    · cases hu : update_storage_usage s.quotas u (-(r.size : Int)) with
      | error e =>
        rw [destroyOp_del_uerr s u fid r e hfind hb hrc hu] at hok
        cases hok
      | ok qs1 =>
        rw [destroyOp_del s u fid r qs1 hfind hb hrc hu]
        dsimp only
        refine ⟨?_, ?_, ?_⟩
        · intro _ x hx
          unfold removeCascade at hx
          have hpred := (List.mem_filter.mp hx).2
          rw [Bool.and_eq_true] at hpred
          have h1 := hpred.1
          rw [← hrfid]
          simpa using h1
        · intro _ hcontra
          omega
        · show usedOfQ qs1 u = max 0 (usedOfQ s.quotas u - (r.size : Int))
          have := usedOfQ_update_ok s.quotas u (-(r.size : Int)) qs1 hu
          omega

/-- C2 witness: `"u2"` deletes their reference (id 1) in `c2State`; the
theorem applies and its quota conclusion instantiates to a closed fact. -/
theorem C2_delete_effects_witness :
    usedOf (destroyOp c2State "u2" 1).2 "u2"
      = max 0 (usedOf c2State "u2" - (3 : Int)) :=
  (C2_delete_effects c2State "u2" 1
    ⟨1, "u2", "a.txt", "text/plain", 3, "h1", true, some 0, 1, none⟩
    (by decide) (by decide)).2.2

/-! ## Claim C1 — ownership on delete -/

/-- C1 (code bug): `destroy` looks the record up by primary key only, so a
delete issued by `"A"` on `"B"`'s record succeeds (and even charges the
release to `"A"`'s quota, clamped to 0) instead of failing with NotFound;
by contrast `download` (via the owner-filtered queryset) does answer
NotFound to `"A"`, and deleting a nonexistent id answers NotFound. -/
theorem C1_cross_user_delete_bug :
    ((c1State.files.find? (fun x => x.fid == 0)).map (fun x => x.user)
        = some "B") ∧
    (destroyOp c1State "A" 0).1 = .ok () ∧
    (destroyOp c1State "A" 0).2.files = [] ∧
    usedOf (destroyOp c1State "A" 0).2 "B" = 3 ∧
    usedOf (destroyOp c1State "A" 0).2 "A" = 0 ∧
    downloadOp c1State "A" 0 = .error .notFound ∧
    (destroyOp c1State "A" 999).1 = .error .notFound := by decide

/-! ## Claim C10 — download of a reference -/

/-- C10: downloading a reference streams the original record's bytes and
uses the original's stored filename, MIME type and size for the response
metadata — not the fields stored on the reference itself. -/
theorem C10_download_reference_metadata (s : St) (u : String) (fid : Nat)
    (r o : FileRec) (bs : List Nat)
    (hfind : s.files.find? (fun x => x.fid == fid && x.user == u) = some r)
    (href : r.is_ref = true) (horig : r.orig = some o.fid)
    (hofind : s.files.find? (fun x => some x.fid == r.orig) = some o)
    (hbytes : o.content = some bs) :
    downloadOp s u fid = .ok ⟨bs, o.original_filename, o.file_type, o.size⟩ := by
  unfold downloadOp
  rw [hfind]
  have hcond : (r.is_ref && r.orig.isSome) = true := by
    rw [href, horig]; rfl
  simp only [hcond, if_true, hofind, hbytes]

/-- C10 witness: `"u2"`'s reference (id 1, stored as `copy.bin` /
`application/octet-stream`) downloads with the original's `orig.pdf` /
`application/pdf` metadata and bytes. -/
theorem C10_download_reference_metadata_witness :
    downloadOp
      (uploadOp (uploadOp St.empty "u1" "orig.pdf" "application/pdf" "h1"
          [7, 8, 9]).2 "u2" "copy.bin" "application/octet-stream" "h1"
          [7, 8, 9]).2 "u2" 1
      = .ok ⟨[7, 8, 9], "orig.pdf", "application/pdf", 3⟩ :=
  C10_download_reference_metadata _ "u2" 1
    ⟨1, "u2", "copy.bin", "application/octet-stream", 3, "h1", true, some 0,
      1, none⟩
    ⟨0, "u1", "orig.pdf", "application/pdf", 3, "h1", false, none, 2,
      some [7, 8, 9]⟩
    [7, 8, 9] (by decide) (by decide) (by decide) (by decide) (by decide)

end FileVault
